import Mathlib

/-!
The task server ocrmypdf-go: a verification development of `main.go`.

A shallow embedding of the task server in `main.go`: the task registry, the
HTTP handlers `runTask`, `downloadAsset` and `taskByUpload`, the sweeper
`taskCleaner`, the output streamer `streamPipe`, the identifier generator
`newTaskId` and `sanitizeFilename`.

Conventions.
* A Go `string` is a sequence of bytes.  It is represented as a `List Char`,
  each `Char` standing for one byte (its code point is the byte value).
* A `time.Time` is an `Int` (nanoseconds); `Before` is `<`.
* `int32`/`int64` values are `Int`, wrapped explicitly where the source can
  overflow (`atomic.AddInt32`).
* The goroutines of `runTask` are a transition system: a state, the atomic
  steps of the three activities, and schedules (lists of steps).
* The disk is the list of the paths of the files on it; `os.Create`, the child
  process and `os.Remove` change it, `http.ServeFile` reads it.
* The states the server can reach are those that calls of the handlers and
  passes of the sweeper, each taken as one step, produce from the start state.
-/

namespace OcrMyPdf

/-- A Go string: a sequence of bytes, one `Char` per byte. -/
abbrev GoString := List Char

/-! ## Data model (`main.go` lines 36-46) -/

/-- The record `taskInfo` of `main.go`. -/
structure taskInfo where
  filename : GoString
  filepath : GoString
  language : List GoString
  deskew : Bool
  rotate : Bool
  force : Bool
  result : GoString
  status : Int
  expiry : Int
deriving DecidableEq, Repr

/-- Lookup of a key in an association list: the first entry with that key. -/
def lookupEntry (k : GoString) : List (GoString × taskInfo) → Option taskInfo
  | [] => none
  | (k', v) :: rest => if k' = k then some v else lookupEntry k rest

/-- The registry `taskMap : Map[string, *taskInfo]`: a finite map, kept as a
list of entries with pairwise distinct keys. -/
structure Registry where
  entries : List (GoString × taskInfo)
  nodup : (entries.map Prod.fst).Nodup

/-- The empty registry (the zero value of `taskMap`). -/
def Registry.empty : Registry := ⟨[], List.nodup_nil⟩

/-- Method `taskMap.Load(key)`. -/
def Registry.Load (r : Registry) (k : GoString) : Option taskInfo :=
  lookupEntry k r.entries

/-- Method `taskMap.Delete(key)`. -/
def Registry.Delete (r : Registry) (k : GoString) : Registry :=
  ⟨r.entries.filter (fun e => decide (e.1 ≠ k)),
    List.Nodup.sublist (List.Sublist.map Prod.fst (List.filter_sublist r.entries)) r.nodup⟩

/-- Method `taskMap.Store(key, value)`. -/
def Registry.Store (r : Registry) (k : GoString) (v : taskInfo) : Registry :=
  ⟨(k, v) :: r.entries.filter (fun e => decide (e.1 ≠ k)), by
    rw [List.map_cons, List.nodup_cons]
    refine ⟨?_, List.Nodup.sublist (List.Sublist.map Prod.fst (List.filter_sublist r.entries)) r.nodup⟩
    intro hk
    rcases List.mem_map.1 hk with ⟨e, he, hek⟩
    have := (List.mem_filter.1 he).2
    simp at this
    exact this hek⟩

/-- A write through the `*taskInfo` pointer held by the map under `k`
(`task.status = ...`, `task.expiry = ...`): the stored record changes in place. -/
def Registry.modify (r : Registry) (k : GoString) (f : taskInfo → taskInfo) : Registry :=
  ⟨r.entries.map (fun e => if e.1 = k then (e.1, f e.2) else e), by
    have h : (r.entries.map (fun e => if e.1 = k then (e.1, f e.2) else e)).map Prod.fst
        = r.entries.map Prod.fst := by
      rw [List.map_map]
      apply List.map_congr_left
      intro e _
      by_cases h : e.1 = k <;> simp [h]
    rw [h]; exact r.nodup⟩

/-- The state the handlers act on: the registry, the log of the paths that
were passed to `os.Remove`, in call order, and the paths of the files that are
on disk. -/
structure World where
  tasks : Registry
  removed : List GoString
  files : List GoString

/-- The call `os.Remove(path)`: the call is logged and the file, if it is on disk,
is gone. -/
def World.osRemove (w : World) (path : GoString) : World :=
  { w with removed := w.removed ++ [path], files := w.files.filter (fun p => decide (p ≠ path)) }

/-- A file is created (or truncated) at `path`. -/
def World.create (w : World) (path : GoString) : World :=
  { w with files := if path ∈ w.files then w.files else path :: w.files }

/-- What a handler sends back. -/
inductive Reply
  | notFound (msg : GoString)
  | serverError (msg : GoString)
  | eventStream
  | serveFile (path : GoString) (disposition : GoString)
  | taskCreated (taskId : GoString)
deriving DecidableEq, Repr

/-- The constant `time.Minute`, in nanoseconds. -/
def minute : Int := 60000000000

/-! ## `runTask`: the concurrent phase (`main.go` lines 315-380) -/

/-- Where the handler goroutine of `runTask` stands. -/
inductive HandlerPc
  | selecting
  | exitBranch
  | disconnectBranch
  | returned (viaDisconnect : Bool)
deriving DecidableEq, Repr

/-- The atomic steps of the activities around `runTask` once the child runs. -/
inductive Event
  /-- The call `cmd.Wait()` returns in the process-wait goroutine; `ok` is `err == nil`. -/
  | waitReturns (ok : Bool)
  /-- The streamer `streamPipe` ends and its deferred function closes `ptyClosedChan`. -/
  | streamerFinishes
  /-- the process-wait goroutine receives from `ptyClosedChan` and, returning,
  closes `processExitChan`. -/
  | waiterCompletes
  /-- the request context is cancelled: `r.Context().Done()` is closed. -/
  | clientDisconnects
  /-- the handler's `select` takes `case <-processExitChan`. -/
  | selectProcessExit
  /-- the handler's `select` takes `case <-r.Context().Done()` and kills the child. -/
  | selectDisconnect
  /-- the handler returns; the deferred functions close the terminal and write
  `task.status = int32(taskResult)`. -/
  | finalize
deriving DecidableEq, Repr

/-- The shared state of one execution. -/
structure Exec where
  /-- the local `taskResult` shared with the process-wait goroutine -/
  taskResult : Int
  /-- the field `task.status` -/
  status : Int
  /-- what `cmd.Wait()` returned, once it has: `some true` is `err == nil` -/
  waited : Option Bool
  /-- the channel `ptyClosedChan` is closed -/
  ptyClosed : Bool
  /-- the channel `processExitChan` is closed -/
  processExit : Bool
  /-- the channel `r.Context().Done()` is closed -/
  ctxDone : Bool
  /-- the call `cmd.Process.Kill()` was made -/
  killed : Bool
  handler : HandlerPc
deriving DecidableEq, Repr

/-- The state right after the two goroutines are started: `taskResult := 3`
(line 246), `task.status = 1` (line 267), the handler enters `select`. -/
def Exec.init : Exec :=
  { taskResult := 3, status := 1, waited := none, ptyClosed := false,
    processExit := false, ctxDone := false, killed := false, handler := .selecting }

/-- One atomic step; a step that is not enabled leaves the state as it is. -/
def Exec.step (s : Exec) : Event → Exec
  | .waitReturns ok =>
    if s.waited = none then
      { s with waited := some ok, taskResult := if ok then 2 else s.taskResult }
    else s
  | .streamerFinishes => { s with ptyClosed := true }
  | .waiterCompletes =>
    if s.waited ≠ none ∧ s.ptyClosed = true then { s with processExit := true } else s
  | .clientDisconnects => { s with ctxDone := true }
  | .selectProcessExit =>
    if s.handler = .selecting ∧ s.processExit = true then { s with handler := .exitBranch } else s
  | .selectDisconnect =>
    if s.handler = .selecting ∧ s.ctxDone = true then
      { s with handler := .disconnectBranch, killed := true }
    else s
  | .finalize =>
    match s.handler with
    | .exitBranch => { s with handler := .returned false, status := s.taskResult }
    | .disconnectBranch => { s with handler := .returned true, status := s.taskResult }
    | _ => s

/-- The state after a schedule of steps. -/
def Exec.run (s : Exec) (schedule : List Event) : Exec :=
  schedule.foldl Exec.step s

/-- What holds of every state an execution can reach. -/
structure Exec.Inv (s : Exec) : Prop where
  result : s.taskResult = if s.waited = some true then 2 else 3
  exitChan : s.processExit = true → s.waited ≠ none ∧ s.ptyClosed = true
  exitBranch : s.handler = .exitBranch → s.processExit = true
  retExit : s.handler = .returned false → s.processExit = true ∧ s.status = s.taskResult
  retDisc : s.handler = .returned true → s.status = 3 ∨ (s.status = 2 ∧ s.waited = some true)
  running : (∀ b, s.handler ≠ .returned b) → s.status = 1

/-! ## `runTask` (`main.go` lines 234-380) -/

/-- What `runTask` cannot decide by itself. -/
structure RunEnv where
  /-- the assertion `w.(http.Flusher)` succeeds -/
  flusher : Bool
  /-- the error text of `pty.Start(cmd)`, if it fails -/
  startErr : Option GoString
  /-- the interleaving of the activities once the child runs -/
  schedule : List Event
  /-- the value of `time.Now()` when the deferred function runs -/
  now : Int
  /-- the child has written its output file (its last argument, line 283) by the
  time the handler returns -/
  outputWritten : Bool

/-- The deferred function of lines 247-251. -/
def runTaskDeferred (w : World) (taskId : GoString) (task : taskInfo) (taskResult now : Int) : World :=
  let tasks := w.tasks.modify taskId
    (fun t => { t with status := taskResult, expiry := now + 10 * minute })
  World.osRemove { w with tasks := tasks } task.filepath

/-- The body of `runTask` from line 246 on, entered once the two checks of
lines 237-245 have passed: the execution of the task.  `none`: the handler has
not returned by the end of the schedule. -/
def runTaskBody (env : RunEnv) (w : World) (taskId : GoString) (task : taskInfo) :
    Option (Reply × World) :=
  if env.flusher = false then
    some (.serverError "Streaming unsupported!".toList, runTaskDeferred w taskId task 3 env.now)
  else
    match env.startErr with
    | some err =>
      some (.serverError ("Error starting PTY: ".toList ++ err),
        runTaskDeferred w taskId task 3 env.now)
    | none =>
      let s := Exec.init.run env.schedule
      match s.handler with
      | .returned _ =>
        some (.eventStream,
          runTaskDeferred (if env.outputWritten then w.create task.result else w) taskId task
            s.status env.now)
      | _ => none

/-- The handler `runTask`. -/
def runTask (env : RunEnv) (w : World) (taskId : GoString) : Option (Reply × World) :=
  match w.tasks.Load taskId with
  | none => some (.notFound "task not found".toList, w)
  | some task =>
    if task.status ≠ 0 ∧ task.status ≠ 3 then
      some (.serverError "task already running".toList, w)
    else
      runTaskBody env w taskId task

/-! ## `downloadAsset` (`main.go` lines 176-191) -/

/-- The handler `downloadAsset`; `now` is `time.Now()` at line 190.  The call
`http.ServeFile` of line 189 sends the file when it is on disk and answers
`404 page not found` when it is not; line 190 runs in both cases. -/
def downloadAsset (now : Int) (w : World) (taskId : GoString) : Reply × World :=
  match w.tasks.Load taskId with
  | none => (.notFound "404 page not found".toList, w)
  | some task =>
    if task.status ≠ 2 ∨ task.result = [] then
      (.serverError "task not finished".toList, w)
    else
      (if task.result ∈ w.files then .serveFile task.result ("ocr_".toList ++ task.filename)
        else .notFound "404 page not found".toList,
        { w with tasks := w.tasks.modify taskId (fun t => { t with expiry := now + 3 * minute }) })

/-! ## `taskCleaner` (`main.go` lines 153-174) -/

/-- The callback passed to `taskMap.Range` (lines 158-169), acting on the pair
of the paths passed to `os.Remove` so far and `removeKeys`. -/
def cleanerVisit (t : Int) (acc : List GoString × List GoString) (e : GoString × taskInfo) :
    List GoString × List GoString :=
  if e.2.expiry < t then
    let r1 := if e.2.filename ≠ [] then acc.1 ++ [e.2.filepath] else acc.1
    let r2 := if e.2.result ≠ [] then r1 ++ [e.2.result] else r1
    (r2, acc.2 ++ [e.1])
  else acc

/-- One pass of the loop body of `taskCleaner`, with `t := time.Now()`. -/
def taskCleanerPass (t : Int) (w : World) : World :=
  let acc := w.tasks.entries.foldl (cleanerVisit t) ([], [])
  { tasks := acc.2.foldl Registry.Delete w.tasks,
    removed := w.removed ++ acc.1,
    files := w.files.filter (fun p => decide (p ∉ acc.1)) }

/-! ## `newTaskId` (`main.go` lines 99-101) -/

/-- The digit loop of Go's integer formatting (`strconv`, base 10): the digits
of `n` are put in front of `ds`, least significant first; `fuel` bounds the
number of digits. -/
def formatBits : Nat → Nat → List Char → List Char
  | 0, _, ds => ds
  | fuel + 1, n, ds =>
    let d := Nat.digitChar (n % 10)
    if n / 10 = 0 then d :: ds else formatBits fuel (n / 10) (d :: ds)

/-- The verb `%d` on an unsigned value. -/
def formatNat (n : Nat) : GoString := formatBits (n + 1) n []

/-- The verb `%d` on a signed value: a minus sign and the magnitude when negative. -/
def formatInt (i : Int) : GoString :=
  if i < 0 then '-' :: formatNat i.natAbs else formatNat i.toNat

/-- The value of an `int32` computation: the result is wrapped into
`[-2^31, 2^31)`. -/
def wrapInt32 (x : Int) : Int := (x + 2147483648) % 4294967296 - 2147483648

/-- The format `"%d-%d"` of line 100. -/
def taskIdString (nano counter : Int) : GoString :=
  formatInt nano ++ '-' :: formatInt counter

/-- The function `newTaskId`: `nano` is `time.Now().UnixNano()`, `taskCounter` the
global before the call; the result is the id and the global after the call
(`atomic.AddInt32(&taskCounter, 1)` returns the new, wrapped value). -/
def newTaskId (nano taskCounter : Int) : GoString × Int :=
  (taskIdString nano (wrapInt32 (taskCounter + 1)), wrapInt32 (taskCounter + 1))

/-- The global `taskCounter` after `n` calls of `newTaskId` in one process
(it starts at 0, line 31). -/
def counterAfter : Nat → Int
  | 0 => 0
  | n + 1 => (newTaskId 0 (counterAfter n)).2

/-- The id returned by call number `n` (from 0) of `newTaskId` in one process,
`clock n` being the clock reading of that call. -/
def nthTaskId (clock : Nat → Int) (n : Nat) : GoString :=
  (newTaskId (clock n) (counterAfter n)).1

/-- The number a string of decimal digits stands for. -/
def decimalValue (l : List Char) : Nat :=
  l.foldl (fun a c => 10 * a + (c.toNat - 48)) 0

/-! ## `sanitizeFilename` (`main.go` lines 422-434) -/

/-- The characters of the class `[<>:"/\\|?*]` of line 423. -/
def invalidChars : List Char := ['<', '>', ':', '"', '/', '\\', '|', '?', '*']

/-- The call `invalidChars.ReplaceAllString(input, "_")`: every byte of the class
becomes an underscore (the class is ASCII, so no byte of a longer UTF-8
sequence is touched). -/
def replaceInvalid (input : GoString) : GoString :=
  input.map (fun c => if c ∈ invalidChars then '_' else c)

/-- The UTF-8 encodings of the runes for which `unicode.IsSpace` holds: tab,
line feed, vertical tab, form feed, carriage return, space, U+0085, U+00A0,
U+1680, U+2000 to U+200A, U+2028, U+2029, U+202F, U+205F, U+3000. -/
def spaceRunes : List (List Char) :=
  ([[0x09], [0x0A], [0x0B], [0x0C], [0x0D], [0x20], [0xC2, 0x85], [0xC2, 0xA0],
    [0xE1, 0x9A, 0x80], [0xE2, 0x80, 0x80], [0xE2, 0x80, 0x81], [0xE2, 0x80, 0x82],
    [0xE2, 0x80, 0x83], [0xE2, 0x80, 0x84], [0xE2, 0x80, 0x85], [0xE2, 0x80, 0x86],
    [0xE2, 0x80, 0x87], [0xE2, 0x80, 0x88], [0xE2, 0x80, 0x89], [0xE2, 0x80, 0x8A],
    [0xE2, 0x80, 0xA8], [0xE2, 0x80, 0xA9], [0xE2, 0x80, 0xAF], [0xE2, 0x81, 0x9F],
    [0xE3, 0x80, 0x80]] : List (List Nat)).map (fun bs => bs.map Char.ofNat)

/-- The byte length of the space rune the string starts with, if it starts
with one. -/
def leadingSpace (s : GoString) : Option Nat :=
  (spaceRunes.find? (fun r => r.isPrefixOf s)).map List.length

/-- The byte length of the space rune the string ends with, if it ends with one. -/
def trailingSpace (s : GoString) : Option Nat :=
  (spaceRunes.find? (fun r => r.isSuffixOf s)).map List.length

/-- Leading space runes are dropped, one per unit of fuel. -/
def trimLeftSpace : Nat → GoString → GoString
  | 0, s => s
  | fuel + 1, s =>
    match leadingSpace s with
    | some k => trimLeftSpace fuel (s.drop k)
    | none => s

/-- Trailing space runes are dropped, one per unit of fuel. -/
def trimRightSpace : Nat → GoString → GoString
  | 0, s => s
  | fuel + 1, s =>
    match trailingSpace s with
    | some k => trimRightSpace fuel (s.take (s.length - k))
    | none => s

/-- The function `strings.TrimSpace`: all leading and all trailing space runes are
removed. -/
def TrimSpace (s : GoString) : GoString :=
  let l := trimLeftSpace s.length s
  trimRightSpace l.length l

/-- The function `sanitizeFilename`. -/
def sanitizeFilename (input : GoString) : GoString :=
  let sanitized := TrimSpace (replaceInvalid input)
  if sanitized.length > 255 then sanitized.take 255 else sanitized

/-- A name of 256 bytes whose byte 255 is a space: 254 letters, a space, a letter. -/
def longName : GoString := List.replicate 254 'a' ++ [' ', 'b']

/-! ## `path.Join` (Go standard library, used at lines 118, 136, 142) -/

/-- The elements of a path: the pieces between slashes. -/
def splitSlash : List Char → List (List Char)
  | [] => [[]]
  | c :: rest =>
    if c = '/' then [] :: splitSlash rest
    else
      match splitSlash rest with
      | [] => [[c]]
      | e :: es => (c :: e) :: es

/-- One element processed by `path.Clean`; the elements kept so far are a stack,
last one first.  An empty element and `.` are skipped; `..` removes the last
element if there is one that is not `..`, is dropped at the root, and is kept
otherwise; any other element is kept. -/
def cleanStep (rooted : Bool) (stack : List (List Char)) (e : List Char) : List (List Char) :=
  if e = [] ∨ e = ['.'] then stack
  else if e = ['.', '.'] then
    match stack with
    | [] => if rooted then [] else [e]
    | top :: below => if top = ['.', '.'] then e :: stack else below
  else e :: stack

/-- The kept elements, first one first, with slashes between them. -/
def renderElems : List (List Char) → List Char
  | [] => []
  | [e] => e
  | e :: below => renderElems below ++ '/' :: e

/-- The function `path.Clean` of Go, element by element: the shortest
equivalent path. -/
def Clean (path : GoString) : GoString :=
  if path = [] then ['.']
  else
    let rooted := decide (path.head? = some '/')
    let stack := (splitSlash path).foldl (cleanStep rooted) []
    if rooted then '/' :: renderElems stack
    else if stack = [] then ['.'] else renderElems stack

/-- One round of the loop of `path.Join` that builds the buffer. -/
def joinBuf (buf : List Char) (e : GoString) : List Char :=
  if buf ≠ [] ∨ e ≠ [] then (if buf ≠ [] then buf ++ ['/'] else buf) ++ e else buf

/-- The function `path.Join` of Go. -/
def Join (elem : List GoString) : GoString :=
  if (elem.map List.length).sum = 0 then [] else Clean (elem.foldl joinBuf [])

/-- What `path.Join` puts in front of a plain last element. -/
def joinPrefix (dir : GoString) : List Char :=
  if dir = [] then []
  else
    let rooted := decide (dir.head? = some '/')
    let stack := (splitSlash dir).foldl (cleanStep rooted) []
    (if rooted then ['/'] else []) ++ (if stack = [] then [] else renderElems stack ++ ['/'])

/-! ## `taskByUpload` (`main.go` lines 103-151) -/

/-- The process-wide state: the two directories, the counter and the world. -/
structure Server where
  fileLocation : GoString
  outputLocation : GoString
  taskCounter : Int
  world : World

/-- What a request to `/upload` carries and what the system answers to it. -/
structure UploadReq where
  /-- the error of `r.FormFile("file")`, if any -/
  fileErr : Option GoString
  /-- the form value `name` -/
  name : GoString
  /-- the form values `language` -/
  language : List GoString
  deskew : GoString
  rotate : GoString
  force : GoString
  /-- the error of `os.Create`, if any -/
  createErr : Option GoString
  /-- the error of `io.Copy`, if any and not `io.EOF` -/
  copyErr : Option GoString
  /-- the reading of `time.Now().UnixNano()` in `newTaskId` -/
  nano : Int
  /-- the reading of `time.Now()` at line 143 -/
  now : Int

/-- The handler `taskByUpload`; `ToLower` is `strings.ToLower`. -/
def taskByUpload (ToLower : GoString → GoString) (req : UploadReq) (s : Server) :
    Reply × Server :=
  let filename := sanitizeFilename req.name
  match req.fileErr with
  | some err => (.serverError err, s)
  | none =>
    if filename = [] then (.serverError "invalid filename".toList, s)
    else
      let id := newTaskId req.nano s.taskCounter
      let s0 := { s with taskCounter := id.2 }
      match req.createErr with
      | some err => (.serverError err, s0)
      | none =>
        let s1 := { s0 with world := s0.world.create (Join [s.fileLocation, id.1]) }
        match req.copyErr with
        | some err => (.serverError err, s1)
        | none =>
          let task : taskInfo :=
            { filename := filename
              filepath := Join [s.fileLocation, id.1]
              status := 0
              language := req.language.map ToLower
              deskew := decide (req.deskew = "on".toList)
              rotate := decide (req.rotate = "on".toList)
              force := decide (req.force = "on".toList)
              result := Join [s.outputLocation, "ocr_".toList ++ filename]
              expiry := req.now + 30 * minute }
          (.taskCreated id.1, { s1 with world := { s1.world with tasks := s1.world.tasks.Store id.1 task } })

/-- A server just started in the directory `srv`. -/
def sampleServer : Server :=
  { fileLocation := "srv/files".toList, outputLocation := "srv/output".toList,
    taskCounter := 0, world := { tasks := Registry.empty, removed := [], files := [] } }

/-- An upload of a file named `a.pdf`. -/
def sampleUpload (nano : Int) : UploadReq :=
  { fileErr := none, name := "a.pdf".toList, language := [], deskew := [], rotate := [],
    force := [], createErr := none, copyErr := none, nano := nano, now := 0 }

/-! ## The states the server can reach -/

/-- The handler `runTask` as a step of the server.  When the handler does not
return (the schedule leaves it blocked in its `select`), the task stays as line
267 has set it: status 1. -/
def Server.run (env : RunEnv) (taskId : GoString) (s : Server) : Server :=
  match runTask env s.world taskId with
  | some r => { s with world := r.2 }
  | none =>
    { s with world := { s.world with
        tasks := s.world.tasks.modify taskId (fun t => { t with status := 1 }) } }

/-- The handler `downloadAsset` as a step of the server. -/
def Server.download (now : Int) (taskId : GoString) (s : Server) : Server :=
  { s with world := (downloadAsset now s.world taskId).2 }

/-- One pass of `taskCleaner` as a step of the server. -/
def Server.sweep (t : Int) (s : Server) : Server :=
  { s with world := taskCleanerPass t s.world }

/-- The states of the server: it starts with an empty registry and the counter
at 0 (lines 31-32), in any two directories and with any files on disk, and
every later state comes from a call of a handler or a pass of the sweeper. -/
inductive Reachable : Server → Prop
  | start (fileLocation outputLocation : GoString) (files : List GoString) :
    Reachable { fileLocation := fileLocation, outputLocation := outputLocation, taskCounter := 0,
                world := { tasks := Registry.empty, removed := [], files := files } }
  | upload (ToLower : GoString → GoString) (req : UploadReq) (s : Server) :
    Reachable s → Reachable (taskByUpload ToLower req s).2
  | run (env : RunEnv) (taskId : GoString) (s : Server) :
    Reachable s → Reachable (s.run env taskId)
  | download (now : Int) (taskId : GoString) (s : Server) :
    Reachable s → Reachable (s.download now taskId)
  | sweep (t : Int) (s : Server) :
    Reachable s → Reachable (s.sweep t)

/-- Every record of the registry has a non-empty `filename` and a non-empty
`result`. -/
def Registry.Named (r : Registry) : Prop :=
  ∀ k v, r.Load k = some v → v.filename ≠ [] ∧ v.result ≠ []

/-! ## `streamPipe` (`main.go` lines 383-420) -/

/-- A byte read from the terminal. -/
abbrev Byte := Fin 256

/-- The alphabet of `base64.StdEncoding`. -/
def encodeStd : List Char :=
  "ABCDEFGHIJKLMNOPQRSTUVWXYZabcdefghijklmnopqrstuvwxyz0123456789+/".toList

/-- The character for a 6-bit value. -/
def b64Char (v : Nat) : Char := encodeStd.getD v 'A'

/-- The function `base64.StdEncoding.EncodeToString`: three bytes give four characters;
a last group of one or two bytes is padded with `=`. -/
def EncodeToString : List Byte → List Char
  | [] => []
  | [a] =>
    let val := a.val * 65536
    [b64Char (val / 262144 % 64), b64Char (val / 4096 % 64), '=', '=']
  | [a, b] =>
    let val := a.val * 65536 + b.val * 256
    [b64Char (val / 262144 % 64), b64Char (val / 4096 % 64), b64Char (val / 64 % 64), '=']
  | a :: b :: c :: rest =>
    let val := a.val * 65536 + b.val * 256 + c.val
    b64Char (val / 262144 % 64) :: b64Char (val / 4096 % 64) :: b64Char (val / 64 % 64)
      :: b64Char (val % 64) :: EncodeToString rest

/-- The 6-bit value of a character of the alphabet. -/
def b64Value (c : Char) : Option Nat :=
  let i := encodeStd.indexOf c
  if i < 64 then some i else none

/-- The function `base64.StdEncoding.DecodeString`: four characters give three
bytes; padding is accepted in the last group only. -/
def DecodeString : List Char → Option (List Byte)
  | [] => some []
  | c0 :: c1 :: c2 :: c3 :: rest =>
    match b64Value c0, b64Value c1 with
    | some v0, some v1 =>
      if c2 = '=' then
        if c3 = '=' ∧ rest = [] then
          some [⟨(v0 * 4 + v1 / 16) % 256, Nat.mod_lt _ (by decide)⟩]
        else none
      else
        match b64Value c2 with
        | some v2 =>
          if c3 = '=' then
            if rest = [] then
              some [⟨(v0 * 4 + v1 / 16) % 256, Nat.mod_lt _ (by decide)⟩,
                ⟨(v1 * 16 + v2 / 4) % 256, Nat.mod_lt _ (by decide)⟩]
            else none
          else
            match b64Value c3, DecodeString rest with
            | some v3, some bs =>
              some (⟨(v0 * 4 + v1 / 16) % 256, Nat.mod_lt _ (by decide)⟩
                :: ⟨(v1 * 16 + v2 / 4) % 256, Nat.mod_lt _ (by decide)⟩
                :: ⟨(v2 * 64 + v3) % 256, Nat.mod_lt _ (by decide)⟩ :: bs)
            | _, _ => none
        | none => none
    | _, _ => none
  | _ => none

/-- A character of base64 text: one of the alphabet, or the padding. -/
def b64Text (c : Char) : Prop := (∃ v : Fin 64, c = b64Char v.val) ∨ c = '='

/-- Two hexadecimal digits, as `%02x` writes them. -/
def hex2 (n : Nat) : List Char := [Nat.digitChar (n / 16 % 16), Nat.digitChar (n % 16)]

/-- One byte as the verb `%q` (`strconv.Quote`) writes it inside the quotes: a
double quote and a backslash are escaped, a printable ASCII byte is itself,
the control bytes have their escapes.  Bytes from 0x80 on are written as
`\xNN`, which is what Go does for bytes that are no valid UTF-8; the text
quoted at line 397 is base64 text, which is ASCII. -/
def quoteByte (c : Char) : List Char :=
  if c = '"' then ['\\', '"']
  else if c = '\\' then ['\\', '\\']
  else if 0x20 ≤ c.toNat ∧ c.toNat < 0x7F then [c]
  else if c.toNat = 7 then ['\\', 'a']
  else if c.toNat = 8 then ['\\', 'b']
  else if c.toNat = 12 then ['\\', 'f']
  else if c.toNat = 10 then ['\\', 'n']
  else if c.toNat = 13 then ['\\', 'r']
  else if c.toNat = 9 then ['\\', 't']
  else if c.toNat = 11 then ['\\', 'v']
  else '\\' :: 'x' :: hex2 c.toNat

/-- The verb `%q` on a string. -/
def quote (s : GoString) : GoString :=
  '"' :: (s.flatMap quoteByte ++ ['"'])

/-- The text written for one chunk (lines 396-399): the JSON object of line 397
inside the frame `data: %s\n\n` of line 399. -/
def eventText (streamName : GoString) (chunk : List Byte) : GoString :=
  "data: ".toList ++ ("\x7b\"type\": \"output\", \"stream\": \"".toList ++ streamName
    ++ "\", \"data_b64\": ".toList ++ quote (EncodeToString chunk) ++ "\x7d".toList)
    ++ "\n\n".toList

/-- The error of a `Read`. -/
inductive ReadErr
  | eof
  | other
deriving DecidableEq, Repr

/-- One round of the loop of `streamPipe`, as the outside decides it: what
`pipe.Read` returns (the bytes `buffer[:n]` and the error) and whether the write
of the event to the client fails. -/
structure PtyRead where
  data : List Byte
  err : Option ReadErr
  writeFails : Bool
deriving DecidableEq, Repr

/-- The loop of `streamPipe`: the events written to the client, in order, and
whether the function has returned (and so closed `doneChan`).  When the reads
run out without an error the function is still blocked in `Read`. -/
def streamPipe (streamName : GoString) : List PtyRead → List GoString × Bool
  | [] => ([], false)
  | r :: rest =>
    if r.data.length > 0 then
      if r.writeFails then ([], true)
      else if r.err ≠ none then ([eventText streamName r.data], true)
      else (eventText streamName r.data :: (streamPipe streamName rest).1,
        (streamPipe streamName rest).2)
    else if r.err ≠ none then ([], true)
    else streamPipe streamName rest

/-- The reads the loop of `streamPipe` gets to make: all up to the first one
that returns an error, that one included. -/
def readsMade : List PtyRead → List PtyRead
  | [] => []
  | r :: rest => if r.err ≠ none then [r] else r :: readsMade rest

/-- Characters of a rendered number: no separator of ids or paths among them. -/
def plainChar (c : Char) : Prop := c ≠ '-' ∧ c ≠ '/' ∧ c ≠ '.'

/-! ## Sample states -/

/-- A freshly uploaded task, as `taskByUpload` stores it. -/
def sampleTask : taskInfo :=
  { filename := "a.pdf".toList, filepath := "files/17-1".toList, language := [],
    deskew := false, rotate := false, force := false,
    result := "output/ocr_a.pdf".toList, status := 0, expiry := 1800 }

/-- A world holding `sampleTask` under the id `17-1`, its source file on disk. -/
def sampleWorld : World :=
  { tasks := Registry.empty.Store "17-1".toList sampleTask, removed := [],
    files := ["files/17-1".toList] }

/-- A world whose one task is running. -/
def runningWorld : World :=
  { tasks := Registry.empty.Store "17-1".toList { sampleTask with status := 1 }, removed := [],
    files := ["files/17-1".toList] }

/-- An execution that ends by process+drain completion after a successful exit. -/
def completedEnv : RunEnv :=
  { flusher := true, startErr := none, now := 100, outputWritten := true,
    schedule := [.waitReturns true, .streamerFinishes, .waiterCompletes, .selectProcessExit,
      .finalize] }

/-- The same execution, at another time. -/
def completedEnvAt (now : Int) : RunEnv := { completedEnv with now := now }

/-- Two uploads of files named `a.pdf`; both tasks are executed with success,
the first at time 100 and the second five minutes later; the sweeper passes
twelve minutes after time 100, when only the first task has expired. -/
def collisionServer : Server :=
  ((((taskByUpload id (sampleUpload 1700000000000000005) sampleServer).2
    |> fun s => (taskByUpload id (sampleUpload 1700000000000000009) s).2)
    |>.run (completedEnvAt 100) "1700000000000000005-1".toList)
    |>.run (completedEnvAt (100 + 5 * minute)) "1700000000000000009-2".toList)
    |>.sweep (100 + 12 * minute)

/-- The one record of `servedServer`. -/
def servedTask : taskInfo :=
  { filename := "a.pdf".toList, filepath := "srv/files/1700000000000000005-1".toList,
    language := [], deskew := false, rotate := false, force := false,
    result := "srv/output/ocr_a.pdf".toList, status := 2, expiry := 100 + 10 * minute }

/-- One upload of a file named `a.pdf`, executed with success at time 100. -/
def servedServer : Server :=
  (taskByUpload id (sampleUpload 1700000000000000005) sampleServer).2
    |>.run (completedEnvAt 100) "1700000000000000005-1".toList

/-- An execution in which the client leaves before anything else happens; the
handler returns while the child and the streamer are still running. -/
def disconnectEnv : RunEnv :=
  { flusher := true, startErr := none, now := 100, outputWritten := false,
    schedule := [.clientDisconnects, .selectDisconnect, .finalize, .waitReturns false,
      .streamerFinishes, .waiterCompletes] }

/-- An execution in which the child exits with success, the streamer is still
draining, and the client leaves. -/
def lateDisconnectEnv : RunEnv :=
  { flusher := true, startErr := none, now := 100, outputWritten := true,
    schedule := [.waitReturns true, .clientDisconnects, .selectDisconnect, .finalize] }

/-! # Theorems -/

/-! ## The registry -/

theorem lookupEntry_mem {k : GoString} {v : taskInfo} :
    ∀ {l : List (GoString × taskInfo)}, lookupEntry k l = some v → (k, v) ∈ l
  | [], h => by simp [lookupEntry] at h
  | (k', v') :: rest, h => by
    unfold lookupEntry at h
    by_cases hk : k' = k
    · simp [hk] at h
      simp [hk, h]
    · simp [hk] at h
      exact List.mem_cons_of_mem _ (lookupEntry_mem h)

theorem lookupEntry_none_of_not_mem {k : GoString} :
    ∀ {l : List (GoString × taskInfo)}, k ∉ l.map Prod.fst → lookupEntry k l = none
  | [], _ => rfl
  | (k', v') :: rest, h => by
    simp only [List.map_cons, List.mem_cons, not_or] at h
    unfold lookupEntry
    rw [if_neg (fun e => h.1 e.symm)]
    exact lookupEntry_none_of_not_mem h.2

theorem lookupEntry_filter (p : taskInfo → Bool) (k : GoString) :
    ∀ (l : List (GoString × taskInfo)), (l.map Prod.fst).Nodup →
      lookupEntry k (l.filter (fun e => p e.2)) = (lookupEntry k l).filter p
  | [], _ => rfl
  | (k', v') :: rest, h => by
    rw [List.map_cons, List.nodup_cons] at h
    have ih := lookupEntry_filter p k rest h.2
    by_cases hk : k' = k
    · subst hk
      have hnone : lookupEntry k' rest = none := lookupEntry_none_of_not_mem h.1
      by_cases hp : p v' = true
      · simp [List.filter_cons, hp, lookupEntry, Option.filter]
      · simp [List.filter_cons, hp, lookupEntry, Option.filter, ih, hnone]
    · by_cases hp : p v' = true
      · simp [List.filter_cons, hp, lookupEntry, hk, ih]
      · simp [List.filter_cons, hp, lookupEntry, hk, ih]

theorem foldl_Delete_entries (keys : List GoString) :
    ∀ r : Registry, (keys.foldl Registry.Delete r).entries
      = r.entries.filter (fun e => decide (e.1 ∉ keys)) := by
  induction keys with
  | nil => intro r; simp
  | cons k ks ih =>
    intro r
    rw [List.foldl_cons, ih, Registry.Delete, List.filter_filter]
    apply List.filter_congr
    intro e _
    simp [List.mem_cons, not_or, Bool.and_comm]

theorem lookupEntry_cons_self (k : GoString) (v : taskInfo) (rest : List (GoString × taskInfo)) :
    lookupEntry k ((k, v) :: rest) = some v := by
  simp [lookupEntry]

theorem lookupEntry_cons_ne {k k' : GoString} (h : k' ≠ k) (v : taskInfo)
    (rest : List (GoString × taskInfo)) :
    lookupEntry k ((k', v) :: rest) = lookupEntry k rest := by
  simp [lookupEntry, h]

theorem lookupEntry_map_modify (k k' : GoString) (f : taskInfo → taskInfo) :
    ∀ l : List (GoString × taskInfo),
      lookupEntry k' (l.map (fun e => if e.1 = k then (e.1, f e.2) else e))
        = if k' = k then (lookupEntry k' l).map f else lookupEntry k' l
  | [] => by simp [lookupEntry]
  | (ke, ve) :: rest => by
    have ih := lookupEntry_map_modify k k' f rest
    rw [List.map_cons]
    by_cases h1 : ke = k
    · have e1 : (if (ke, ve).1 = k then ((ke, ve).1, f (ke, ve).2) else (ke, ve)) = (ke, f ve) :=
        if_pos h1
      rw [e1]
      by_cases h2 : ke = k'
      · subst h2
        rw [lookupEntry_cons_self, lookupEntry_cons_self, if_pos h1]
        rfl
      · rw [lookupEntry_cons_ne h2, lookupEntry_cons_ne h2, ih]
    · have e1 : (if (ke, ve).1 = k then ((ke, ve).1, f (ke, ve).2) else (ke, ve)) = (ke, ve) :=
        if_neg h1
      rw [e1]
      by_cases h2 : ke = k'
      · subst h2
        rw [lookupEntry_cons_self, lookupEntry_cons_self, if_neg h1]
      · rw [lookupEntry_cons_ne h2, lookupEntry_cons_ne h2, ih]

theorem Load_modify (r : Registry) (k k' : GoString) (f : taskInfo → taskInfo) :
    (r.modify k f).Load k' = if k' = k then (r.Load k').map f else r.Load k' :=
  lookupEntry_map_modify k k' f r.entries

/-! ## The sweeper -/

/-- The paths one visit of the sweeper passes to `os.Remove` for a record. -/
theorem cleanerVisit_expired (t : Int) (acc : List GoString × List GoString)
    (e : GoString × taskInfo) (h : e.2.expiry < t) :
    cleanerVisit t acc e =
      (acc.1 ++ ((if e.2.filename ≠ [] then [e.2.filepath] else [])
        ++ (if e.2.result ≠ [] then [e.2.result] else [])), acc.2 ++ [e.1]) := by
  unfold cleanerVisit
  rw [if_pos h]
  by_cases h1 : e.2.filename = [] <;> by_cases h2 : e.2.result = [] <;> simp [h1, h2]

theorem cleanerVisit_kept (t : Int) (acc : List GoString × List GoString)
    (e : GoString × taskInfo) (h : ¬ e.2.expiry < t) : cleanerVisit t acc e = acc := by
  unfold cleanerVisit
  rw [if_neg h]

theorem foldl_cleanerVisit_keys (t : Int) (l : List (GoString × taskInfo)) :
    ∀ acc : List GoString × List GoString,
      (l.foldl (cleanerVisit t) acc).2
        = acc.2 ++ (l.filter (fun e => decide (e.2.expiry < t))).map Prod.fst := by
  induction l with
  | nil => intro acc; simp
  | cons e rest ih =>
    intro acc
    rw [List.foldl_cons, ih]
    by_cases h : e.2.expiry < t
    · rw [cleanerVisit_expired t acc e h]
      simp [List.filter_cons, h]
    · rw [cleanerVisit_kept t acc e h]
      simp [List.filter_cons, h]

theorem foldl_cleanerVisit_log (t : Int) (l : List (GoString × taskInfo)) :
    ∀ acc : List GoString × List GoString,
      ∃ extra, (l.foldl (cleanerVisit t) acc).1 = acc.1 ++ extra ∧
        (∀ p, p ∈ extra ↔ ∃ e ∈ l, e.2.expiry < t ∧
          ((e.2.filename ≠ [] ∧ p = e.2.filepath) ∨ (e.2.result ≠ [] ∧ p = e.2.result))) := by
  induction l with
  | nil =>
    intro acc
    exact ⟨[], by simp, fun p => ⟨fun h => absurd h (List.not_mem_nil _),
      fun ⟨e, he, _⟩ => absurd he (List.not_mem_nil _)⟩⟩
  | cons e rest ih =>
    intro acc
    rw [List.foldl_cons]
    obtain ⟨extra, hex, hmem⟩ := ih (cleanerVisit t acc e)
    by_cases h : e.2.expiry < t
    · rw [cleanerVisit_expired t acc e h] at hex ⊢
      refine ⟨((if e.2.filename ≠ [] then [e.2.filepath] else [])
        ++ (if e.2.result ≠ [] then [e.2.result] else [])) ++ extra, ?_, ?_⟩
      · rw [hex]; simp
      · intro p
        rw [List.mem_append, hmem]
        constructor
        · rintro (hp | ⟨e', he', hp⟩)
          · refine ⟨e, List.mem_cons_self _ _, h, ?_⟩
            by_cases h1 : e.2.filename = [] <;> by_cases h2 : e.2.result = [] <;>
              simp [h1, h2] at hp ⊢ <;> tauto
          · exact ⟨e', List.mem_cons_of_mem _ he', hp⟩
        · rintro ⟨e', he', hlt, hp⟩
          rcases List.mem_cons.1 he' with rfl | he'
          · left
            by_cases h1 : e'.2.filename = [] <;> by_cases h2 : e'.2.result = [] <;>
              simp [h1, h2] at hp ⊢ <;> tauto
          · exact Or.inr ⟨e', he', hlt, hp⟩
    · rw [cleanerVisit_kept t acc e h] at hex ⊢
      refine ⟨extra, hex, ?_⟩
      intro p
      rw [hmem]
      constructor
      · rintro ⟨e', he', hp⟩
        exact ⟨e', List.mem_cons_of_mem _ he', hp⟩
      · rintro ⟨e', he', hlt, hp⟩
        rcases List.mem_cons.1 he' with rfl | he'
        · exact absurd hlt h
        · exact ⟨e', he', hlt, hp⟩

theorem taskCleanerPass_Load (t : Int) (w : World) (k : GoString) :
    (taskCleanerPass t w).tasks.Load k
      = (w.tasks.Load k).filter (fun v => !decide (v.expiry < t)) := by
  unfold taskCleanerPass Registry.Load
  simp only
  rw [foldl_Delete_entries, foldl_cleanerVisit_keys]
  have hcongr : w.tasks.entries.filter (fun e => decide (e.1 ∉ ([] : List GoString) ++
        (w.tasks.entries.filter (fun e => decide (e.2.expiry < t))).map Prod.fst))
      = w.tasks.entries.filter (fun e => (fun v : taskInfo => !decide (v.expiry < t)) e.2) := by
    apply List.filter_congr
    intro e he
    have hiff : e.1 ∈ (w.tasks.entries.filter (fun e => decide (e.2.expiry < t))).map Prod.fst
        ↔ e.2.expiry < t := by
      constructor
      · intro hm
        rcases List.mem_map.1 hm with ⟨e', he', hk⟩
        have hmem := (List.mem_filter.1 he').1
        have hexp := (List.mem_filter.1 he').2
        have : e' = e := by
          have hinj := List.inj_on_of_nodup_map w.tasks.nodup
          exact hinj hmem he hk
        subst this
        simpa using hexp
      · intro hlt
        exact List.mem_map.2 ⟨e, List.mem_filter.2 ⟨he, by simpa using hlt⟩, rfl⟩
    by_cases hlt : e.2.expiry < t
    · simp [hiff, hlt]
    · simp [hiff, hlt]
  rw [hcongr]
  exact lookupEntry_filter (fun v => !decide (v.expiry < t)) k _ w.tasks.nodup

theorem lookupEntry_of_mem {k : GoString} {v : taskInfo} :
    ∀ {l : List (GoString × taskInfo)}, (l.map Prod.fst).Nodup → (k, v) ∈ l →
      lookupEntry k l = some v
  | [], _, h => absurd h (List.not_mem_nil _)
  | (k', v') :: rest, hn, h => by
    rw [List.map_cons, List.nodup_cons] at hn
    rcases List.mem_cons.1 h with heq | hmem
    · cases heq
      exact lookupEntry_cons_self _ _ _
    · have hne : k' ≠ k := by
        intro hk
        subst hk
        exact hn.1 (List.mem_map.2 ⟨(k', v), hmem, rfl⟩)
      rw [lookupEntry_cons_ne hne]
      exact lookupEntry_of_mem hn.2 hmem

/-! ## Claims on the handlers' gates -/

theorem runTask_eq_body (env : RunEnv) (w : World) (taskId : GoString) (task : taskInfo)
    (h : w.tasks.Load taskId = some task) (hs : task.status = 0 ∨ task.status = 3) :
    runTask env w taskId = runTaskBody env w taskId task := by
  have h0 : ¬ (task.status ≠ 0 ∧ task.status ≠ 3) := by
    rcases hs with hs | hs <;> rw [hs] <;> decide
  simp only [runTask, h]
  rw [if_neg h0]

/-- C1: `runTask` goes on to execution (its body from line 246 on) exactly when
the id is present and the status is 0 or 3.  For an unknown id it answers
`task not found`, for a present task of any other status (1 and 2 among them) it
answers `task already running`, and in both cases the registry, every
record in it and the removal log are exactly as before. -/
theorem runTask_gate (env : RunEnv) (w : World) (taskId : GoString) :
    (w.tasks.Load taskId = none →
      runTask env w taskId = some (.notFound "task not found".toList, w)) ∧
    (∀ task, w.tasks.Load taskId = some task → (task.status = 1 ∨ task.status = 2) →
      runTask env w taskId = some (.serverError "task already running".toList, w)) ∧
    (∀ task, w.tasks.Load taskId = some task → task.status ≠ 0 → task.status ≠ 3 →
      runTask env w taskId = some (.serverError "task already running".toList, w)) ∧
    (∀ task, w.tasks.Load taskId = some task → (task.status = 0 ∨ task.status = 3) →
      runTask env w taskId = runTaskBody env w taskId task) := by
  refine ⟨?_, ?_, ?_, ?_⟩
  · intro h
    simp [runTask, h]
  · intro task h hs
    have h0 : task.status ≠ 0 ∧ task.status ≠ 3 := by
      rcases hs with hs | hs <;> rw [hs] <;> decide
    simp only [runTask, h]
    rw [if_pos h0]
  · intro task h h0 h3
    simp only [runTask, h]
    rw [if_pos ⟨h0, h3⟩]
  · intro task h hs
    have h0 : ¬ (task.status ≠ 0 ∧ task.status ≠ 3) := by
      rcases hs with hs | hs <;> rw [hs] <;> decide
    simp only [runTask, h]
    rw [if_neg h0]

/-- C1, at concrete states: a running task is refused and the world is unchanged; a
pending one enters the body. -/
theorem runTask_gate_witness :
    runTask ⟨true, none, [], 0, false⟩ runningWorld "17-1".toList
        = some (.serverError "task already running".toList, runningWorld) ∧
    runTask ⟨true, none, [], 0, false⟩ sampleWorld "17-1".toList
        = runTaskBody ⟨true, none, [], 0, false⟩ sampleWorld "17-1".toList sampleTask :=
  ⟨(runTask_gate ⟨true, none, [], 0, false⟩ runningWorld "17-1".toList).2.1
      { sampleTask with status := 1 } (by decide) (Or.inl rfl),
    (runTask_gate ⟨true, none, [], 0, false⟩ sampleWorld "17-1".toList).2.2.2
      sampleTask (by decide) (Or.inl rfl)⟩

/-! ## The execution of a task -/

theorem Exec.Inv_init : Exec.init.Inv := by
  constructor <;> simp [Exec.init]

theorem Exec.Inv_step (s : Exec) (e : Event) (h : s.Inv) : (s.step e).Inv := by
  obtain ⟨h1, h2, h3, h4, h5, h6⟩ := h
  cases e with
  | waitReturns ok =>
    simp only [Exec.step]
    by_cases hw : s.waited = none
    · rw [if_pos hw]
      rw [hw] at h1
      cases ok <;> constructor <;> simp_all
    · rw [if_neg hw]
      exact ⟨h1, h2, h3, h4, h5, h6⟩
  | streamerFinishes =>
    simp only [Exec.step]
    constructor <;> simp_all
  | waiterCompletes =>
    simp only [Exec.step]
    by_cases hw : s.waited ≠ none ∧ s.ptyClosed = true
    · rw [if_pos hw]
      constructor <;> simp_all
    · rw [if_neg hw]
      exact ⟨h1, h2, h3, h4, h5, h6⟩
  | clientDisconnects =>
    simp only [Exec.step]
    constructor <;> simp_all
  | selectProcessExit =>
    simp only [Exec.step]
    by_cases hw : s.handler = .selecting ∧ s.processExit = true
    · rw [if_pos hw]
      constructor <;> simp_all
    · rw [if_neg hw]
      exact ⟨h1, h2, h3, h4, h5, h6⟩
  | selectDisconnect =>
    simp only [Exec.step]
    by_cases hw : s.handler = .selecting ∧ s.ctxDone = true
    · rw [if_pos hw]
      constructor <;> simp_all
    · rw [if_neg hw]
      exact ⟨h1, h2, h3, h4, h5, h6⟩
  | finalize =>
    simp only [Exec.step]
    split
    · rename_i hh
      constructor <;> simp_all
    · rename_i hh
      constructor
      · exact h1
      · exact h2
      · simp
      · simp
      · intro _
        show s.taskResult = 3 ∨ (s.taskResult = 2 ∧ s.waited = some true)
        rw [h1]
        by_cases hw : s.waited = some true
        · right; simp [hw]
        · left; simp [hw]
      · intro hb
        exact absurd rfl (hb true)
    · exact ⟨h1, h2, h3, h4, h5, h6⟩

theorem Exec.Inv_run (schedule : List Event) : ∀ s : Exec, s.Inv → (s.run schedule).Inv := by
  induction schedule with
  | nil => intro s h; exact h
  | cons e rest ih =>
    intro s h
    exact ih (s.step e) (Exec.Inv_step s e h)

theorem Exec.run_append (s : Exec) (a b : List Event) : s.run (a ++ b) = (s.run a).run b := by
  simp [Exec.run, List.foldl_append]

theorem Exec.step_returned (s : Exec) (e : Event) (b : Bool) (h : s.handler = .returned b) :
    (s.step e).handler = .returned b ∧ (s.step e).status = s.status := by
  cases e <;> simp only [Exec.step] <;> try split_ifs
  all_goals simp_all

theorem Exec.run_returned (schedule : List Event) :
    ∀ (s : Exec) (b : Bool), s.handler = .returned b →
      (s.run schedule).handler = .returned b ∧ (s.run schedule).status = s.status := by
  induction schedule with
  | nil => intro s b h; exact ⟨h, rfl⟩
  | cons e rest ih =>
    intro s b h
    have hs := Exec.step_returned s e b h
    have hr := ih (s.step e) b hs.1
    exact ⟨hr.1, hr.2.trans hs.2⟩

theorem runTaskDeferred_status (w : World) (taskId : GoString) (task t : taskInfo)
    (r now : Int) (h : w.tasks.Load taskId = some t) :
    ((runTaskDeferred w taskId task r now).tasks.Load taskId).map (fun t => t.status) = some r := by
  unfold runTaskDeferred World.osRemove
  simp only
  rw [Load_modify, if_pos rfl, h]
  rfl

/-- C2: when `runTask` passes its gate, the child starts, and the handler ends
through the `processExitChan` case of its `select`, then `cmd.Wait()` has
returned, the handler answers, and the status written to the task is 2 if
`cmd.Wait()` returned no error and 3 otherwise. -/
theorem runTask_completion_status (env : RunEnv) (w : World) (taskId : GoString)
    (task : taskInfo) (hload : w.tasks.Load taskId = some task)
    (hgate : task.status = 0 ∨ task.status = 3)
    (hf : env.flusher = true) (hs : env.startErr = none)
    (hret : (Exec.init.run env.schedule).handler = .returned false) :
    (Exec.init.run env.schedule).waited ≠ none ∧
    ∃ w', runTask env w taskId = some (.eventStream, w') ∧
      (w'.tasks.Load taskId).map (fun t => t.status)
        = some (if (Exec.init.run env.schedule).waited = some true then 2 else 3) := by
  have hinv := Exec.Inv_run env.schedule Exec.init Exec.Inv_init
  have hexit := hinv.retExit hret
  refine ⟨(hinv.exitChan hexit.1).1, ?_⟩
  refine ⟨runTaskDeferred (if env.outputWritten then w.create task.result else w) taskId task
    (Exec.init.run env.schedule).status env.now, ?_, ?_⟩
  · rw [runTask_eq_body env w taskId task hload hgate]
    unfold runTaskBody
    simp [hf, hs, hret]
  · have hl : (if env.outputWritten then w.create task.result else w).tasks.Load taskId
        = some task := by
      split_ifs
      · exact hload
      · exact hload
    rw [runTaskDeferred_status _ taskId task task _ _ hl, hexit.2, hinv.result]

/-- C2, at a concrete execution: the child exits with success, the streamer
drains, the handler ends through `processExitChan`, and status 2 is written. -/
theorem runTask_completion_status_witness :
    (Exec.init.run completedEnv.schedule).waited ≠ none ∧
    ∃ w', runTask completedEnv sampleWorld "17-1".toList = some (.eventStream, w') ∧
      (w'.tasks.Load "17-1".toList).map (fun t => t.status)
        = some (if (Exec.init.run completedEnv.schedule).waited = some true then 2 else 3) :=
  runTask_completion_status completedEnv sampleWorld "17-1".toList sampleTask (by decide)
    (Or.inl rfl) rfl rfl (by decide)

/-- C3, as amended: the process-wait goroutine closes `processExitChan` only
after the streamer has closed `ptyClosedChan`; the handler takes the
`processExitChan` case, and returns through it, only after both; the status is
written only when the handler returns.  In the disconnect case the handler
returns at its next step, whatever the streamer and the process-wait goroutine
have reached. -/
theorem finalize_after_drain_on_exit_path (schedule : List Event) :
    ((Exec.init.run schedule).processExit = true → (Exec.init.run schedule).ptyClosed = true) ∧
    ((Exec.init.run schedule).handler = .exitBranch →
      (Exec.init.run schedule).processExit = true ∧ (Exec.init.run schedule).ptyClosed = true) ∧
    ((Exec.init.run schedule).handler = .returned false →
      (Exec.init.run schedule).processExit = true ∧ (Exec.init.run schedule).ptyClosed = true) ∧
    ((Exec.init.run schedule).status ≠ 1 → ∃ b, (Exec.init.run schedule).handler = .returned b) ∧
    ((Exec.init.run schedule).handler = .disconnectBranch →
      ((Exec.init.run schedule).step .finalize).handler = .returned true) := by
  have hinv := Exec.Inv_run schedule Exec.init Exec.Inv_init
  refine ⟨fun h => (hinv.exitChan h).2, ?_, ?_, ?_, ?_⟩
  · intro h
    exact ⟨hinv.exitBranch h, (hinv.exitChan (hinv.exitBranch h)).2⟩
  · intro h
    exact ⟨(hinv.retExit h).1, (hinv.exitChan (hinv.retExit h).1).2⟩
  · intro h
    by_contra hc
    exact h (hinv.running (fun b hb => hc ⟨b, hb⟩))
  · intro h
    simp only [Exec.step, h]

/-- C3, at a concrete execution: after the completed run the handler has
returned through `processExitChan`, and the streamer had finished. -/
theorem finalize_after_drain_on_exit_path_witness :
    (Exec.init.run completedEnv.schedule).processExit = true ∧
    (Exec.init.run completedEnv.schedule).ptyClosed = true :=
  (finalize_after_drain_on_exit_path completedEnv.schedule).2.2.1 (by decide)

/-- C3 as stated fails: the client disconnects, the handler kills the child and
returns; the status 3 is written and the handler has answered although the
streamer has not signalled completion and `processExitChan` is not closed. -/
theorem disconnect_finalizes_before_drain :
    (Exec.init.run [.clientDisconnects, .selectDisconnect, .finalize]).handler = .returned true ∧
    (Exec.init.run [.clientDisconnects, .selectDisconnect, .finalize]).status = 3 ∧
    (Exec.init.run [.clientDisconnects, .selectDisconnect, .finalize]).ptyClosed = false ∧
    (Exec.init.run [.clientDisconnects, .selectDisconnect, .finalize]).processExit = false ∧
    (runTask { disconnectEnv with schedule := [.clientDisconnects, .selectDisconnect, .finalize] }
      sampleWorld "17-1".toList).map (fun r => (r.1, (r.2.tasks.Load "17-1".toList).map
        (fun t => t.status))) = some (.eventStream, some 3) := by
  decide

/-- C4, as amended: when the handler has taken the disconnect case and, at the
moment its deferred function runs, `cmd.Wait()` has not returned without error
(it has not returned, or it returned an error), the status written is 3, and
it stays 3 whatever happens afterwards. -/
theorem disconnect_status_failed (pre post : List Event)
    (hb : (Exec.init.run pre).handler = .disconnectBranch)
    (hw : (Exec.init.run pre).waited ≠ some true) :
    (Exec.init.run (pre ++ .finalize :: post)).handler = .returned true ∧
    (Exec.init.run (pre ++ .finalize :: post)).status = 3 := by
  have hinv := Exec.Inv_run pre Exec.init Exec.Inv_init
  have hfin : ((Exec.init.run pre).step .finalize).handler = .returned true ∧
      ((Exec.init.run pre).step .finalize).status = 3 := by
    simp only [Exec.step, hb]
    refine ⟨trivial, ?_⟩
    rw [hinv.result, if_neg hw]
  have hrun : Exec.init.run (pre ++ .finalize :: post)
      = ((Exec.init.run pre).step .finalize).run post := by
    rw [Exec.run_append]
    rfl
  rw [hrun]
  have hlater := Exec.run_returned post _ true hfin.1
  exact ⟨hlater.1, hlater.2.trans hfin.2⟩

/-- C4, at a concrete execution: the client leaves while the child runs; the
status written is 3 and stays 3 when the killed child is reaped. -/
theorem disconnect_status_failed_witness :
    (Exec.init.run ([.clientDisconnects, .selectDisconnect] ++ .finalize ::
      [.waitReturns false, .streamerFinishes, .waiterCompletes])).handler = .returned true ∧
    (Exec.init.run ([.clientDisconnects, .selectDisconnect] ++ .finalize ::
      [.waitReturns false, .streamerFinishes, .waiterCompletes])).status = 3 :=
  disconnect_status_failed [.clientDisconnects, .selectDisconnect]
    [.waitReturns false, .streamerFinishes, .waiterCompletes] (by decide) (by decide)

/-- C4 as stated fails: the child exits with success, the streamer is still
draining (`processExitChan` is not closed), the client disconnects and the
handler takes the disconnect case: the status written is 2. -/
theorem disconnect_after_success_status2 :
    (Exec.init.run lateDisconnectEnv.schedule).handler = .returned true ∧
    (Exec.init.run lateDisconnectEnv.schedule).processExit = false ∧
    (Exec.init.run lateDisconnectEnv.schedule).status = 2 ∧
    (runTask lateDisconnectEnv sampleWorld "17-1".toList).map
      (fun r => (r.1, (r.2.tasks.Load "17-1".toList).map (fun t => t.status)))
      = some (.eventStream, some 2) := by
  decide

/-! ## Task identifiers -/

theorem digitChar_facts : ∀ d : Fin 10,
    Nat.digitChar d.val ≠ '-' ∧ Nat.digitChar d.val ≠ '/' ∧ Nat.digitChar d.val ≠ '.' ∧
      (Nat.digitChar d.val).toNat - 48 = d.val := by
  decide

theorem digitChar_mod (n : Nat) :
    Nat.digitChar (n % 10) ≠ '-' ∧ Nat.digitChar (n % 10) ≠ '/' ∧
      Nat.digitChar (n % 10) ≠ '.' ∧ (Nat.digitChar (n % 10)).toNat - 48 = n % 10 :=
  digitChar_facts ⟨n % 10, Nat.mod_lt _ (by decide)⟩

theorem decimalValue_append_singleton (l : List Char) (c : Char) :
    decimalValue (l ++ [c]) = 10 * decimalValue l + (c.toNat - 48) := by
  simp [decimalValue, List.foldl_append]

theorem formatBits_spec : ∀ (fuel n : Nat) (ds : List Char), n < fuel →
    ∃ l, formatBits fuel n ds = l ++ ds ∧ l ≠ [] ∧ (∀ c ∈ l, plainChar c) ∧ decimalValue l = n := by
  intro fuel
  induction fuel with
  | zero => intro n ds h; exact absurd h (Nat.not_lt_zero _)
  | succ fuel ih =>
    intro n ds h
    have hd := digitChar_mod n
    unfold formatBits
    simp only
    by_cases h0 : n / 10 = 0
    · rw [if_pos h0]
      refine ⟨[Nat.digitChar (n % 10)], rfl, by simp, ?_, ?_⟩
      · intro c hc
        rw [List.mem_singleton] at hc
        rw [hc]
        exact ⟨hd.1, hd.2.1, hd.2.2.1⟩
      · have : decimalValue [Nat.digitChar (n % 10)] = (Nat.digitChar (n % 10)).toNat - 48 := by
          simp [decimalValue]
        rw [this, hd.2.2.2]
        omega
    · rw [if_neg h0]
      have hlt : n / 10 < fuel := by omega
      obtain ⟨l, hl, hne, hplain, hval⟩ := ih (n / 10) (Nat.digitChar (n % 10) :: ds) hlt
      refine ⟨l ++ [Nat.digitChar (n % 10)], ?_, by simp, ?_, ?_⟩
      · rw [hl]; simp
      · intro c hc
        rcases List.mem_append.1 hc with hc | hc
        · exact hplain c hc
        · rw [List.mem_singleton] at hc
          rw [hc]
          exact ⟨hd.1, hd.2.1, hd.2.2.1⟩
      · rw [decimalValue_append_singleton, hval, hd.2.2.2]
        omega

theorem formatNat_spec (n : Nat) :
    formatNat n ≠ [] ∧ (∀ c ∈ formatNat n, plainChar c) ∧ decimalValue (formatNat n) = n := by
  obtain ⟨l, hl, hne, hplain, hval⟩ := formatBits_spec (n + 1) n [] (Nat.lt_succ_self n)
  have : formatNat n = l := by rw [formatNat, hl, List.append_nil]
  rw [this]
  exact ⟨hne, hplain, hval⟩

theorem formatNat_injective {a b : Nat} (h : formatNat a = formatNat b) : a = b := by
  have ha := (formatNat_spec a).2.2
  have hb := (formatNat_spec b).2.2
  rw [h] at ha
  exact ha.symm.trans hb

theorem dash_split : ∀ (d1 d2 r1 r2 : List Char), (∀ c ∈ d1, c ≠ '-') → (∀ c ∈ d2, c ≠ '-') →
    d1 ++ '-' :: r1 = d2 ++ '-' :: r2 → d1 = d2 ∧ r1 = r2
  | [], [], r1, r2, _, _, h => by
    simp only [List.nil_append, List.cons.injEq, true_and] at h
    exact ⟨rfl, h⟩
  | [], c :: d2, r1, r2, _, h2, h => by
    simp only [List.nil_append, List.cons_append, List.cons.injEq] at h
    exact absurd h.1.symm (h2 c (List.mem_cons_self _ _))
  | c :: d1, [], r1, r2, h1, _, h => by
    simp only [List.nil_append, List.cons_append, List.cons.injEq] at h
    exact absurd h.1 (h1 c (List.mem_cons_self _ _))
  | c1 :: d1, c2 :: d2, r1, r2, h1, h2, h => by
    simp only [List.cons_append, List.cons.injEq] at h
    have ih := dash_split d1 d2 r1 r2 (fun c hc => h1 c (List.mem_cons_of_mem _ hc))
      (fun c hc => h2 c (List.mem_cons_of_mem _ hc)) h.2
    exact ⟨by rw [h.1, ih.1], ih.2⟩

theorem formatNat_no_dash (n : Nat) : ∀ c ∈ formatNat n, c ≠ '-' :=
  fun c hc => ((formatNat_spec n).2.1 c hc).1

theorem formatNat_head_ne_dash (n : Nat) (r : List Char) : formatNat n ≠ '-' :: r := by
  intro h
  have := formatNat_no_dash n '-' (by rw [h]; exact List.mem_cons_self _ _)
  exact this rfl

theorem formatInt_injective {a b : Int} (h : formatInt a = formatInt b) : a = b := by
  unfold formatInt at h
  by_cases ha : a < 0 <;> by_cases hb : b < 0
  · rw [if_pos ha, if_pos hb] at h
    have := formatNat_injective (List.cons.inj h).2
    omega
  · rw [if_pos ha, if_neg hb] at h
    exact absurd h.symm (formatNat_head_ne_dash _ _)
  · rw [if_neg ha, if_pos hb] at h
    exact absurd h (formatNat_head_ne_dash _ _)
  · rw [if_neg ha, if_neg hb] at h
    have := formatNat_injective h
    omega

theorem taskIdString_injective {t c t' c' : Int}
    (h : taskIdString t c = taskIdString t' c') : t = t' ∧ c = c' := by
  unfold taskIdString at h
  have key : formatInt t = formatInt t' ∧ formatInt c = formatInt c' := by
    unfold formatInt at h ⊢
    by_cases ht : t < 0 <;> by_cases ht' : t' < 0
    · rw [if_pos ht, if_pos ht'] at h ⊢
      simp only [List.cons_append, List.cons.injEq, true_and] at h
      have := dash_split _ _ _ _ (formatNat_no_dash _) (formatNat_no_dash _) h
      exact ⟨by rw [this.1], this.2⟩
    · rw [if_pos ht, if_neg ht'] at h
      exfalso
      have hne := (formatNat_spec t'.toNat).1
      cases hf : formatNat t'.toNat with
      | nil => exact hne hf
      | cons x xs =>
        rw [hf] at h
        simp only [List.cons_append, List.cons.injEq] at h
        exact formatNat_head_ne_dash t'.toNat xs (by rw [hf, ← h.1])
    · rw [if_neg ht, if_pos ht'] at h
      exfalso
      have hne := (formatNat_spec t.toNat).1
      cases hf : formatNat t.toNat with
      | nil => exact hne hf
      | cons x xs =>
        rw [hf] at h
        simp only [List.cons_append, List.cons.injEq] at h
        exact formatNat_head_ne_dash t.toNat xs (by rw [hf, h.1])
    · rw [if_neg ht, if_neg ht'] at h ⊢
      exact dash_split _ _ _ _ (formatNat_no_dash _) (formatNat_no_dash _) h
  exact ⟨formatInt_injective key.1, formatInt_injective key.2⟩

theorem counterAfter_eq (n : Nat) : counterAfter n = wrapInt32 n := by
  induction n with
  | zero => rfl
  | succ n ih =>
    show wrapInt32 (counterAfter n + 1) = wrapInt32 ((n + 1 : Nat) : Int)
    rw [ih]
    unfold wrapInt32
    push_cast
    omega

theorem nthTaskId_eq (clock : Nat → Int) (n : Nat) :
    nthTaskId clock n = taskIdString (clock n) (wrapInt32 ((n : Int) + 1)) := by
  show taskIdString (clock n) (wrapInt32 (counterAfter n + 1)) = _
  have h : wrapInt32 (wrapInt32 (n : Int) + 1) = wrapInt32 ((n : Int) + 1) := by
    unfold wrapInt32
    omega
  rw [counterAfter_eq, h]

/-- C9, as amended: the rendering of line 100 never maps two different (time,
counter) pairs to the same string, and two calls of `newTaskId` in one process
return different ids whenever their clock readings differ or their call numbers
are not congruent modulo 2^32 (in particular any two of 2^32 consecutive calls). -/
theorem newTaskId_unique :
    (∀ t c t' c' : Int, taskIdString t c = taskIdString t' c' → t = t' ∧ c = c') ∧
    (∀ (clock : Nat → Int) (i j : Nat),
      (i % 4294967296 ≠ j % 4294967296 ∨ clock i ≠ clock j) →
        nthTaskId clock i ≠ nthTaskId clock j) := by
  refine ⟨fun t c t' c' h => taskIdString_injective h, ?_⟩
  intro clock i j hij heq
  rw [nthTaskId_eq, nthTaskId_eq] at heq
  have h := taskIdString_injective heq
  rcases hij with hij | hij
  · apply hij
    have h2 := h.2
    unfold wrapInt32 at h2
    omega
  · exact hij h.1

/-- C9, at concrete calls: the first two calls of a process whose clock stands
still return different ids. -/
theorem newTaskId_unique_witness :
    nthTaskId (fun _ => 1700000000000000000) 0 ≠ nthTaskId (fun _ => 1700000000000000000) 1 :=
  newTaskId_unique.2 (fun _ => 1700000000000000000) 0 1 (Or.inl (by decide))

/-- C9 as stated fails: with equal clock readings, call number 0 and call number
2^32 of one process are distinct calls that return the same id (the 32-bit
counter has wrapped around). -/
theorem newTaskId_repeats_after_wrap :
    (0 : Nat) ≠ 4294967296 ∧
    nthTaskId (fun _ => 1700000000000000000) 0
      = nthTaskId (fun _ => 1700000000000000000) 4294967296 := by
  refine ⟨by decide, ?_⟩
  have hwrap : wrapInt32 (((4294967296 : Nat) : Int) + 1) = wrapInt32 (((0 : Nat) : Int) + 1) := by
    unfold wrapInt32
    norm_num
  rw [nthTaskId_eq, nthTaskId_eq, hwrap]

/-! ## File names and paths -/

theorem replaceInvalid_clean (input : GoString) : ∀ c ∈ replaceInvalid input, c ∉ invalidChars := by
  intro c hc
  rcases List.mem_map.1 hc with ⟨x, _, hx⟩
  by_cases h : x ∈ invalidChars
  · rw [if_pos h] at hx
    rw [← hx]
    decide
  · rw [if_neg h] at hx
    rw [← hx]
    exact h

theorem trimLeftSpace_suffix : ∀ (fuel : Nat) (s : GoString), trimLeftSpace fuel s <:+ s
  | 0, s => List.suffix_refl s
  | fuel + 1, s => by
    unfold trimLeftSpace
    cases leadingSpace s with
    | none => exact List.suffix_refl s
    | some k => exact (trimLeftSpace_suffix fuel (s.drop k)).trans (List.drop_suffix k s)

theorem trimRightSpace_initial : ∀ (fuel : Nat) (s : GoString), trimRightSpace fuel s <+: s
  | 0, s => List.prefix_refl s
  | fuel + 1, s => by
    unfold trimRightSpace
    cases trailingSpace s with
    | none => exact List.prefix_refl s
    | some k =>
      exact (trimRightSpace_initial fuel (s.take (s.length - k))).trans ( List.take_prefix _ s)

theorem spaceRunes_length : ∀ r ∈ spaceRunes, 1 ≤ r.length := by
  decide

theorem leadingSpace_some {s : GoString} {k : Nat} (h : leadingSpace s = some k) :
    1 ≤ k ∧ k ≤ s.length := by
  unfold leadingSpace at h
  cases hf : spaceRunes.find? (fun r => r.isPrefixOf s) with
  | none => rw [hf] at h; exact absurd h (by simp)
  | some r =>
    rw [hf] at h
    simp only [Option.map_some', Option.some.injEq] at h
    subst h
    have hpt : (fun r : List Char => r.isPrefixOf s) r = true :=
      @List.find?_some _ (fun r : List Char => r.isPrefixOf s) r spaceRunes hf
    have hp : r <+: s := List.isPrefixOf_iff_prefix.1 hpt
    exact ⟨spaceRunes_length r (List.mem_of_find?_eq_some hf), hp.length_le⟩

theorem leadingSpace_of_initial {p s : GoString} (hp : p <+: s) (h : leadingSpace s = none) :
    leadingSpace p = none := by
  unfold leadingSpace at h ⊢
  rw [Option.map_eq_none'] at h ⊢
  rw [List.find?_eq_none] at h ⊢
  intro r hr hpre
  exact h r hr ( List.isPrefixOf_iff_prefix.2 (( List.isPrefixOf_iff_prefix.1 hpre).trans hp))

theorem trimLeftSpace_done : ∀ (fuel : Nat) (s : GoString), s.length ≤ fuel →
    leadingSpace (trimLeftSpace fuel s) = none
  | 0, s, h => by
    have : s = [] := List.length_eq_zero.1 (Nat.le_zero.1 h)
    subst this
    decide
  | fuel + 1, s, h => by
    unfold trimLeftSpace
    cases hl : leadingSpace s with
    | none => exact hl
    | some k =>
      have hk := leadingSpace_some hl
      apply trimLeftSpace_done fuel (s.drop k)
      rw [List.length_drop]
      omega

set_option maxRecDepth 100000 in
/-- C10: for every input the result of `sanitizeFilename` contains none of the
characters `< > : " / \ | ? *`, is at most 255 bytes long and starts with no
space rune.  It can end with one: for a name of 256 bytes whose byte 255 is a
space, `sanitizeFilename` trims nothing, cuts the name to 255 bytes and
returns a string that ends with that space. -/
theorem sanitizeFilename_trailing_space :
    (∀ input : GoString, (∀ c ∈ sanitizeFilename input, c ∉ invalidChars) ∧
      (sanitizeFilename input).length ≤ 255 ∧ leadingSpace (sanitizeFilename input) = none) ∧
    longName.length = 256 ∧
    sanitizeFilename longName = List.replicate 254 'a' ++ [' '] ∧
    trailingSpace (sanitizeFilename longName) = some 1 := by
  refine ⟨?_, by decide, by decide, by decide⟩
  intro input
  have hpre : sanitizeFilename input <+: trimLeftSpace (replaceInvalid input).length
      (replaceInvalid input) := by
    unfold sanitizeFilename TrimSpace
    simp only
    split_ifs
    · exact ( List.take_prefix _ _).trans (trimRightSpace_initial _ _)
    · exact trimRightSpace_initial _ _
  refine ⟨?_, ?_, ?_⟩
  · intro c hc
    exact replaceInvalid_clean input c
      ((trimLeftSpace_suffix _ _).subset (hpre.subset hc))
  · unfold sanitizeFilename
    simp only
    split_ifs with h
    · rw [List.length_take]
      omega
    · omega
  · exact leadingSpace_of_initial hpre (trimLeftSpace_done _ _ (Nat.le_refl _))

set_option maxRecDepth 100000 in
/-- C7, at the failing input: two uploads of files with the same name get
distinct ids and distinct source paths, and the same output path. -/
theorem taskByUpload_same_name_same_output :
    (taskByUpload id (sampleUpload 1700000000000000005) sampleServer).1 = .taskCreated "1700000000000000005-1".toList ∧
    (taskByUpload id (sampleUpload 1700000000000000009) (taskByUpload id (sampleUpload 1700000000000000005) sampleServer).2).1
      = .taskCreated "1700000000000000009-2".toList ∧
    ((taskByUpload id (sampleUpload 1700000000000000009)
        (taskByUpload id (sampleUpload 1700000000000000005) sampleServer).2).2.world.tasks.Load "1700000000000000005-1".toList).map
      (fun t => (t.filepath, t.result))
      = some ("srv/files/1700000000000000005-1".toList, "srv/output/ocr_a.pdf".toList) ∧
    ((taskByUpload id (sampleUpload 1700000000000000009)
        (taskByUpload id (sampleUpload 1700000000000000005) sampleServer).2).2.world.tasks.Load "1700000000000000009-2".toList).map
      (fun t => (t.filepath, t.result))
      = some ("srv/files/1700000000000000009-2".toList, "srv/output/ocr_a.pdf".toList) := by
  decide

/-! ### Paths of source files -/

theorem splitSlash_ne_nil : ∀ l : List Char, splitSlash l ≠ []
  | [] => by simp [splitSlash]
  | c :: rest => by
    unfold splitSlash
    by_cases hc : c = '/'
    · rw [if_pos hc]; exact List.cons_ne_nil _ _
    · rw [if_neg hc]
      cases splitSlash rest <;> exact List.cons_ne_nil _ _

theorem splitSlash_slash (rest : List Char) : splitSlash ('/' :: rest) = [] :: splitSlash rest := by
  simp [splitSlash]

theorem splitSlash_other (c : Char) (rest e : List Char) (es : List (List Char)) (hc : c ≠ '/')
    (h : splitSlash rest = e :: es) : splitSlash (c :: rest) = (c :: e) :: es := by
  simp [splitSlash, hc, h]

theorem splitSlash_append_slash : ∀ a b : List Char,
    splitSlash (a ++ '/' :: b) = splitSlash a ++ splitSlash b
  | [], b => by
    show splitSlash ('/' :: b) = [[]] ++ splitSlash b
    rw [splitSlash_slash]
    rfl
  | c :: a, b => by
    have ih := splitSlash_append_slash a b
    show splitSlash (c :: (a ++ '/' :: b)) = splitSlash (c :: a) ++ splitSlash b
    by_cases hc : c = '/'
    · subst hc
      rw [splitSlash_slash, splitSlash_slash, ih]
      rfl
    · cases h : splitSlash a with
      | nil => exact absurd h (splitSlash_ne_nil a)
      | cons e es =>
        rw [splitSlash_other c a e es hc h,
          splitSlash_other c (a ++ '/' :: b) e (es ++ splitSlash b) hc (by rw [ih, h]; rfl)]
        rfl

theorem splitSlash_no_slash : ∀ l : List Char, (∀ c ∈ l, c ≠ '/') → splitSlash l = [l]
  | [], _ => rfl
  | c :: rest, h => by
    have ih := splitSlash_no_slash rest (fun x hx => h x (List.mem_cons_of_mem _ hx))
    exact splitSlash_other c rest rest [] (h c (List.mem_cons_self _ _)) ih

theorem cleanStep_plain (rooted : Bool) (stack : List (List Char)) (e : List Char)
    (hne : e ≠ []) (hdot : ∀ c ∈ e, c ≠ '.') : cleanStep rooted stack e = e :: stack := by
  have h1 : e ≠ ['.'] := by
    intro h
    exact hdot '.' (by rw [h]; exact List.mem_cons_self _ _) rfl
  have h2 : e ≠ ['.', '.'] := by
    intro h
    exact hdot '.' (by rw [h]; exact List.mem_cons_self _ _) rfl
  unfold cleanStep
  rw [if_neg (by simp [hne, h1]), if_neg h2]

theorem renderElems_cons (e : List Char) (stack : List (List Char)) :
    renderElems (e :: stack) = (if stack = [] then [] else renderElems stack ++ ['/']) ++ e := by
  cases stack with
  | nil => simp [renderElems]
  | cons x xs => simp [renderElems]

theorem Join_plain (dir e : GoString) (hne : e ≠ []) (hslash : ∀ c ∈ e, c ≠ '/')
    (hdot : ∀ c ∈ e, c ≠ '.') : Join [dir, e] = joinPrefix dir ++ e := by
  have hlen : ¬ (([dir, e].map List.length).sum = 0) := by
    have : 0 < e.length := List.length_pos.2 hne
    simp only [List.map_cons, List.map_nil, List.sum_cons, List.sum_nil]
    omega
  have hhead : e.head? ≠ some '/' := by
    cases e with
    | nil => exact absurd rfl hne
    | cons c rest =>
      intro h
      rw [List.head?_cons, Option.some.injEq] at h
      exact hslash c (List.mem_cons_self _ _) h
  unfold Join
  rw [if_neg hlen]
  by_cases hd : dir = []
  · subst hd
    have hbuf : [([] : GoString), e].foldl joinBuf [] = e := by
      simp [joinBuf, hne]
    rw [hbuf]
    unfold Clean joinPrefix
    rw [if_neg hne, if_pos rfl]
    simp only [List.nil_append]
    rw [splitSlash_no_slash e hslash]
    simp only [List.foldl_cons, List.foldl_nil]
    rw [cleanStep_plain _ _ e hne hdot]
    simp [hhead, renderElems]
  · have hbuf : [dir, e].foldl joinBuf [] = dir ++ '/' :: e := by
      simp [joinBuf, hd, hne]
    rw [hbuf]
    have hcons : dir ++ '/' :: e ≠ [] := by
      cases dir <;> simp
    have hh : (dir ++ '/' :: e).head? = dir.head? := by
      cases dir with
      | nil => exact absurd rfl hd
      | cons c rest => rfl
    unfold Clean joinPrefix
    rw [if_neg hcons, if_neg hd]
    simp only [hh]
    rw [splitSlash_append_slash, splitSlash_no_slash e hslash, List.foldl_append]
    simp only [List.foldl_cons, List.foldl_nil]
    rw [cleanStep_plain _ _ e hne hdot, renderElems_cons]
    by_cases hr : dir.head? = some '/'
    · simp [hr]
    · simp [hr]

theorem formatInt_chars (i : Int) : formatInt i ≠ [] ∧ ∀ c ∈ formatInt i, c ≠ '/' ∧ c ≠ '.' := by
  unfold formatInt
  by_cases h : i < 0
  · rw [if_pos h]
    refine ⟨List.cons_ne_nil _ _, ?_⟩
    intro c hc
    rcases List.mem_cons.1 hc with rfl | hc
    · exact ⟨by decide, by decide⟩
    · exact ((formatNat_spec _).2.1 c hc).2
  · rw [if_neg h]
    exact ⟨(formatNat_spec _).1, fun c hc => ((formatNat_spec _).2.1 c hc).2⟩

theorem taskIdString_chars (t k : Int) :
    taskIdString t k ≠ [] ∧ ∀ c ∈ taskIdString t k, c ≠ '/' ∧ c ≠ '.' := by
  unfold taskIdString
  refine ⟨by simp, ?_⟩
  intro c hc
  rcases List.mem_append.1 hc with hc | hc
  · exact (formatInt_chars t).2 c hc
  · rcases List.mem_cons.1 hc with rfl | hc
    · exact ⟨by decide, by decide⟩
    · exact (formatInt_chars k).2 c hc

theorem Load_Store_self (r : Registry) (k : GoString) (v : taskInfo) :
    (r.Store k v).Load k = some v :=
  lookupEntry_cons_self k v _

theorem taskByUpload_created (ToLower : GoString → GoString) (req : UploadReq) (s : Server)
    (taskId : GoString) (h : (taskByUpload ToLower req s).1 = .taskCreated taskId) :
    taskId = taskIdString req.nano (wrapInt32 (s.taskCounter + 1)) ∧
    ∃ t, (taskByUpload ToLower req s).2.world.tasks.Load taskId = some t ∧
      t.filepath = Join [s.fileLocation, taskId] ∧
      t.result = Join [s.outputLocation, "ocr_".toList ++ sanitizeFilename req.name] ∧
      t.filename = sanitizeFilename req.name ∧ t.status = 0 := by
  unfold taskByUpload at h ⊢
  cases hf : req.fileErr with
  | some err => simp [hf] at h
  | none =>
    by_cases hn : sanitizeFilename req.name = []
    · simp [hf, hn] at h
    · cases hc : req.createErr with
      | some err => simp [hf, hn, hc] at h
      | none =>
        cases hp : req.copyErr with
        | some err => simp [hf, hn, hc, hp] at h
        | none =>
          simp only [hf, hn, hc, hp, if_false, Reply.taskCreated.injEq] at h ⊢
          subst h
          refine ⟨rfl, _, Load_Store_self _ _ _, rfl, rfl, rfl, rfl⟩

/-- Two tasks created by `taskByUpload` under distinct ids have distinct source
paths, and they have the same output path as soon as their (sanitized) file
names are equal. -/
theorem taskByUpload_paths (ToLower : GoString → GoString) (req1 req2 : UploadReq)
    (s1 s2 : Server) (hfile : s1.fileLocation = s2.fileLocation)
    (hout : s1.outputLocation = s2.outputLocation) (id1 id2 : GoString)
    (h1 : (taskByUpload ToLower req1 s1).1 = .taskCreated id1)
    (h2 : (taskByUpload ToLower req2 s2).1 = .taskCreated id2) (hne : id1 ≠ id2) :
    ∃ t1 t2, (taskByUpload ToLower req1 s1).2.world.tasks.Load id1 = some t1 ∧
      (taskByUpload ToLower req2 s2).2.world.tasks.Load id2 = some t2 ∧
      t1.filepath ≠ t2.filepath ∧ (t1.filename = t2.filename → t1.result = t2.result) := by
  obtain ⟨e1, t1, hl1, hp1, hr1, hn1, _⟩ := taskByUpload_created ToLower req1 s1 id1 h1
  obtain ⟨e2, t2, hl2, hp2, hr2, hn2, _⟩ := taskByUpload_created ToLower req2 s2 id2 h2
  refine ⟨t1, t2, hl1, hl2, ?_, ?_⟩
  · have c1 := taskIdString_chars req1.nano (wrapInt32 (s1.taskCounter + 1))
    have c2 := taskIdString_chars req2.nano (wrapInt32 (s2.taskCounter + 1))
    rw [← e1] at c1
    rw [← e2] at c2
    rw [hp1, hp2, hfile, Join_plain _ id1 c1.1 (fun c hc => (c1.2 c hc).1) (fun c hc => (c1.2 c hc).2),
      Join_plain _ id2 c2.1 (fun c hc => (c2.2 c hc).1) (fun c hc => (c2.2 c hc).2)]
    intro h
    exact hne (List.append_cancel_left h)
  · intro hname
    rw [hr1, hr2, hout, ← hn1, ← hn2, hname]

/-! ## The output streamer -/

theorem b64Char_facts : ∀ v : Fin 64,
    b64Value (b64Char v.val) = some v.val ∧ b64Char v.val ≠ '=' ∧
      quoteByte (b64Char v.val) = [b64Char v.val] ∧ b64Char v.val ≠ '"' ∧
      b64Char v.val ≠ '\\' ∧ b64Char v.val ≠ '\n' ∧ b64Char v.val ≠ '\r' := by
  decide

theorem b64Value_b64Char (n : Nat) : b64Value (b64Char (n % 64)) = some (n % 64) :=
  (b64Char_facts ⟨n % 64, Nat.mod_lt _ (by decide)⟩).1

theorem b64Char_ne_pad (n : Nat) : b64Char (n % 64) ≠ '=' :=
  (b64Char_facts ⟨n % 64, Nat.mod_lt _ (by decide)⟩).2.1

theorem b64Text_char (n : Nat) : b64Text (b64Char (n % 64)) :=
  Or.inl ⟨⟨n % 64, Nat.mod_lt _ (by decide)⟩, rfl⟩

theorem EncodeToString_text : ∀ (chunk : List Byte), ∀ c ∈ EncodeToString chunk, b64Text c
  | [], c, hc => by simp [EncodeToString] at hc
  | [a], c, hc => by
    simp only [EncodeToString, List.mem_cons, List.mem_singleton, List.not_mem_nil, or_false] at hc
    rcases hc with rfl | rfl | rfl | rfl
    · exact b64Text_char _
    · exact b64Text_char _
    · exact Or.inr rfl
    · exact Or.inr rfl
  | [a, b], c, hc => by
    simp only [EncodeToString, List.mem_cons, List.mem_singleton, List.not_mem_nil, or_false] at hc
    rcases hc with rfl | rfl | rfl | rfl
    · exact b64Text_char _
    · exact b64Text_char _
    · exact b64Text_char _
    · exact Or.inr rfl
  | a :: b :: d :: rest, c, hc => by
    simp only [EncodeToString, List.mem_cons] at hc
    rcases hc with rfl | rfl | rfl | rfl | hc
    · exact b64Text_char _
    · exact b64Text_char _
    · exact b64Text_char _
    · exact b64Text_char _
    · exact EncodeToString_text rest c hc

theorem b64Text_plain {c : Char} (h : b64Text c) :
    quoteByte c = [c] ∧ c ≠ '"' ∧ c ≠ '\\' ∧ c ≠ '\n' ∧ c ≠ '\r' := by
  rcases h with ⟨v, rfl⟩ | rfl
  · have := b64Char_facts v
    exact ⟨this.2.2.1, this.2.2.2.1, this.2.2.2.2.1, this.2.2.2.2.2.1, this.2.2.2.2.2.2⟩
  · decide

theorem flatMap_quoteByte : ∀ l : List Char, (∀ c ∈ l, quoteByte c = [c]) →
    l.flatMap quoteByte = l
  | [], _ => rfl
  | c :: rest, h => by
    rw [List.flatMap_cons, h c (List.mem_cons_self _ _),
      flatMap_quoteByte rest (fun x hx => h x (List.mem_cons_of_mem _ hx))]
    rfl

theorem quote_EncodeToString (chunk : List Byte) :
    quote (EncodeToString chunk) = '"' :: (EncodeToString chunk ++ ['"']) := by
  unfold quote
  rw [flatMap_quoteByte _ (fun c hc => (b64Text_plain (EncodeToString_text chunk c hc)).1)]

theorem DecodeString_EncodeToString : ∀ chunk : List Byte,
    DecodeString (EncodeToString chunk) = some chunk
  | [] => rfl
  | [a] => by
    have ha := a.isLt
    simp only [EncodeToString, DecodeString, b64Value_b64Char, if_true, and_self]
    congr 2
    apply Fin.ext
    simp only
    omega
  | [a, b] => by
    have ha := a.isLt
    have hb := b.isLt
    simp only [EncodeToString, DecodeString, b64Value_b64Char, if_true, if_neg (b64Char_ne_pad _)]
    congr 2
    · apply Fin.ext
      simp only
      omega
    · congr 1
      apply Fin.ext
      simp only
      omega
  | a :: b :: c :: rest => by
    have ha := a.isLt
    have hb := b.isLt
    have hc := c.isLt
    have ih := DecodeString_EncodeToString rest
    simp only [EncodeToString, DecodeString, b64Value_b64Char, if_neg (b64Char_ne_pad _), ih]
    congr 2
    · apply Fin.ext
      simp only
      omega
    · congr 1
      · apply Fin.ext
        simp only
        omega
      · congr 1
        apply Fin.ext
        simp only
        omega

theorem eventText_pty (chunk : List Byte) :
    eventText "pty".toList chunk
      = "data: \x7b\"type\": \"output\", \"stream\": \"pty\", \"data_b64\": \"".toList
        ++ EncodeToString chunk ++ "\"\x7d\n\n".toList := by
  unfold eventText
  rw [quote_EncodeToString]
  simp

theorem streamPipe_written (streamName : GoString) : ∀ reads : List PtyRead,
    (∀ r ∈ reads, r.writeFails = false) →
      (streamPipe streamName reads).1
        = ((readsMade reads).filter (fun r => decide (r.data ≠ []))).map
            (fun r => eventText streamName r.data)
  | [], _ => rfl
  | r :: rest, h => by
    have ih := streamPipe_written streamName rest
      (fun x hx => h x (List.mem_cons_of_mem _ hx))
    have hw : r.writeFails = false := h r (List.mem_cons_self _ _)
    unfold streamPipe readsMade
    by_cases hd : r.data = []
    · have hlen : ¬ r.data.length > 0 := by rw [hd]; decide
      by_cases he : r.err ≠ none
      · simp [hlen, he, hd]
      · simp only [hlen, he, if_false, List.filter_cons, hd]
        simpa using ih
    · have hlen : r.data.length > 0 := List.length_pos.2 hd
      by_cases he : r.err ≠ none
      · simp [hlen, he, hd, hw]
      · simp only [hlen, he, if_true, if_false, hw, List.filter_cons, hd]
        simp [hd, ih]

/-- C8: while the writes to the client succeed, `streamPipe` (with the stream
name `pty` of line 324) writes one event per non-empty read it makes, in read
order, an empty read giving nothing; the event is the text
`data: {"type": "output", "stream": "pty", "data_b64": "<payload>"}` and a
blank line, the payload being the base64 text of the chunk.  Decoding the
payload gives back the chunk, for every sequence of byte values, and the
payload contains no double quote, backslash or line break. -/
theorem streamPipe_events (reads : List PtyRead) (hw : ∀ r ∈ reads, r.writeFails = false) :
    (streamPipe "pty".toList reads).1
      = ((readsMade reads).filter (fun r => decide (r.data ≠ []))).map
          (fun r => "data: \x7b\"type\": \"output\", \"stream\": \"pty\", \"data_b64\": \"".toList
            ++ EncodeToString r.data ++ "\"\x7d\n\n".toList) ∧
    (∀ chunk : List Byte, DecodeString (EncodeToString chunk) = some chunk) ∧
    (∀ chunk : List Byte, ∀ c ∈ EncodeToString chunk,
      c ≠ '"' ∧ c ≠ '\\' ∧ c ≠ '\n' ∧ c ≠ '\r') := by
  refine ⟨?_, DecodeString_EncodeToString, ?_⟩
  · rw [streamPipe_written _ reads hw]
    apply List.map_congr_left
    intro r _
    exact eventText_pty r.data
  · intro chunk c hc
    exact (b64Text_plain (EncodeToString_text chunk c hc)).2

/-- C8, at a concrete run: a read of `hi`, an empty read, a read of the bytes
0, 255, 10 together with end of stream, and a read that is never made. -/
theorem streamPipe_events_witness :
    (streamPipe "pty".toList
      [⟨[104, 105], none, false⟩, ⟨[], none, false⟩, ⟨[0, 255, 10], some .eof, false⟩,
        ⟨[1], none, false⟩]).1
      = ["data: \x7b\"type\": \"output\", \"stream\": \"pty\", \"data_b64\": \"aGk=\"\x7d\n\n".toList,
         "data: \x7b\"type\": \"output\", \"stream\": \"pty\", \"data_b64\": \"AP8K\"\x7d\n\n".toList] :=
  (streamPipe_events
    [⟨[104, 105], none, false⟩, ⟨[], none, false⟩, ⟨[0, 255, 10], some .eof, false⟩,
      ⟨[1], none, false⟩] (by decide)).1.trans (by decide)

/-! ### Records stored by `taskByUpload` -/

theorem cleanStep_nonempty (rooted : Bool) (stack : List (List Char)) (e : List Char)
    (h : ∀ x ∈ stack, x ≠ []) : ∀ x ∈ cleanStep rooted stack e, x ≠ [] := by
  unfold cleanStep
  by_cases h1 : e = [] ∨ e = ['.']
  · rw [if_pos h1]; exact h
  · rw [if_neg h1]
    have hne : e ≠ [] := fun he => h1 (Or.inl he)
    by_cases h2 : e = ['.', '.']
    · rw [if_pos h2]
      cases stack with
      | nil =>
        cases rooted
        · intro x hx
          simp only [Bool.false_eq_true, if_false, List.mem_singleton] at hx
          rw [hx]; exact hne
        · intro x hx
          simp at hx
      | cons top below =>
        simp only
        by_cases h3 : top = ['.', '.']
        · rw [if_pos h3]
          intro x hx
          rcases List.mem_cons.1 hx with rfl | hx
          · exact hne
          · exact h x hx
        · rw [if_neg h3]
          intro x hx
          exact h x (List.mem_cons_of_mem _ hx)
    · rw [if_neg h2]
      intro x hx
      rcases List.mem_cons.1 hx with rfl | hx
      · exact hne
      · exact h x hx

theorem foldl_cleanStep_nonempty (rooted : Bool) : ∀ (es stack : List (List Char)),
    (∀ x ∈ stack, x ≠ []) → ∀ x ∈ es.foldl (cleanStep rooted) stack, x ≠ []
  | [], _, h => h
  | e :: es, stack, h =>
    foldl_cleanStep_nonempty rooted es _ (cleanStep_nonempty rooted stack e h)

theorem renderElems_ne_nil : ∀ stack : List (List Char), stack ≠ [] → (∀ x ∈ stack, x ≠ []) →
    renderElems stack ≠ []
  | [], h, _ => absurd rfl h
  | [e], _, h => by
    simpa [renderElems] using h e (List.mem_cons_self _ _)
  | e :: f :: below, _, _ => by
    simp [renderElems]

theorem Clean_ne_nil (path : GoString) : Clean path ≠ [] := by
  unfold Clean
  by_cases h : path = []
  · rw [if_pos h]; exact List.cons_ne_nil _ _
  · rw [if_neg h]
    simp only
    split_ifs with h1 h2
    · exact List.cons_ne_nil _ _
    · exact List.cons_ne_nil _ _
    · exact renderElems_ne_nil _ h2
        (foldl_cleanStep_nonempty _ _ [] (fun x hx => absurd hx (List.not_mem_nil _)))

/-- A record stored by `taskByUpload` has a non-empty `filename` and a non-empty
`result`: on such records the guards of lines 160, 163 and 184 always pass. -/
theorem taskByUpload_record_nonempty (ToLower : GoString → GoString) (req : UploadReq)
    (s : Server) (taskId : GoString)
    (h : (taskByUpload ToLower req s).1 = .taskCreated taskId) :
    ∃ t, (taskByUpload ToLower req s).2.world.tasks.Load taskId = some t ∧
      t.filename ≠ [] ∧ t.result ≠ [] := by
  obtain ⟨_, t, hl, _, hr, hn, _⟩ := taskByUpload_created ToLower req s taskId h
  refine ⟨t, hl, ?_, ?_⟩
  · rw [hn]
    intro he
    unfold taskByUpload at h
    cases hf : req.fileErr with
    | some err => simp [hf] at h
    | none => simp [hf, he] at h
  · rw [hr]
    unfold Join
    have hlen : ¬ (([s.outputLocation, "ocr_".toList ++ sanitizeFilename req.name].map
        List.length).sum = 0) := by
      simp
    rw [if_neg hlen]
    exact Clean_ne_nil _

/-! ## The states the server can reach -/

theorem lookupEntry_filter_ne {k k' : GoString} (h : k' ≠ k) :
    ∀ l : List (GoString × taskInfo),
      lookupEntry k' (l.filter (fun e => decide (e.1 ≠ k))) = lookupEntry k' l
  | [] => rfl
  | (ke, ve) :: rest => by
    have ih := lookupEntry_filter_ne h rest
    by_cases h1 : ke = k
    · subst h1
      have hne : ke ≠ k' := fun e => h e.symm
      rw [List.filter_cons, lookupEntry_cons_ne hne]
      simpa using ih
    · rw [List.filter_cons]
      simp only [ne_eq, h1, not_false_eq_true, decide_True, if_true]
      by_cases h2 : ke = k'
      · subst h2
        rw [lookupEntry_cons_self, lookupEntry_cons_self]
      · rw [lookupEntry_cons_ne h2, lookupEntry_cons_ne h2, ih]

theorem Load_Store (r : Registry) (k k' : GoString) (v : taskInfo) :
    (r.Store k v).Load k' = if k' = k then some v else r.Load k' := by
  by_cases h : k' = k
  · subst h
    rw [if_pos rfl]
    exact lookupEntry_cons_self _ _ _
  · rw [if_neg h]
    have hne : k ≠ k' := fun e => h e.symm
    show lookupEntry k' ((k, v) :: r.entries.filter (fun e => decide (e.1 ≠ k))) = _
    rw [lookupEntry_cons_ne hne, lookupEntry_filter_ne h]
    rfl

theorem Named_empty : Registry.empty.Named := by
  intro k v h
  exact absurd h (by simp [Registry.Load, Registry.empty, lookupEntry])

theorem Named_Store (r : Registry) (k : GoString) (v : taskInfo) (h : r.Named)
    (h1 : v.filename ≠ []) (h2 : v.result ≠ []) : (r.Store k v).Named := by
  intro k' v' hl
  rw [Load_Store] at hl
  by_cases hk : k' = k
  · rw [if_pos hk, Option.some.injEq] at hl
    rw [← hl]
    exact ⟨h1, h2⟩
  · rw [if_neg hk] at hl
    exact h k' v' hl

theorem Named_modify (r : Registry) (k : GoString) (f : taskInfo → taskInfo) (h : r.Named)
    (hf : ∀ t, (f t).filename = t.filename ∧ (f t).result = t.result) : (r.modify k f).Named := by
  intro k' v' hl
  rw [Load_modify] at hl
  by_cases hk : k' = k
  · rw [if_pos hk] at hl
    cases hv : r.Load k' with
    | none => rw [hv] at hl; exact absurd hl (by simp)
    | some v0 =>
      rw [hv, Option.map_some', Option.some.injEq] at hl
      rw [← hl, (hf v0).1, (hf v0).2]
      exact h k' v0 hv
  · rw [if_neg hk] at hl
    exact h k' v' hl

theorem Named_runTaskDeferred (w : World) (taskId : GoString) (task : taskInfo) (r now : Int)
    (h : w.tasks.Named) : (runTaskDeferred w taskId task r now).tasks.Named :=
  Named_modify _ _ _ h (fun _ => ⟨rfl, rfl⟩)

theorem Named_runTask (env : RunEnv) (w : World) (taskId : GoString) (r : Reply × World)
    (h : w.tasks.Named) (hr : runTask env w taskId = some r) : r.2.tasks.Named := by
  unfold runTask at hr
  cases hl : w.tasks.Load taskId with
  | none =>
    simp only [hl, Option.some.injEq] at hr
    rw [← hr]; exact h
  | some task =>
    simp only [hl] at hr
    by_cases hg : task.status ≠ 0 ∧ task.status ≠ 3
    · rw [if_pos hg, Option.some.injEq] at hr
      rw [← hr]; exact h
    · rw [if_neg hg] at hr
      unfold runTaskBody at hr
      by_cases hf : env.flusher = false
      · rw [if_pos hf, Option.some.injEq] at hr
        rw [← hr]; exact Named_runTaskDeferred _ _ _ _ _ h
      · rw [if_neg hf] at hr
        cases hs : env.startErr with
        | some err =>
          simp only [hs, Option.some.injEq] at hr
          rw [← hr]; exact Named_runTaskDeferred _ _ _ _ _ h
        | none =>
          simp only [hs] at hr
          cases hh : (Exec.init.run env.schedule).handler with
          | returned b =>
            simp only [hh, Option.some.injEq] at hr
            rw [← hr]
            apply Named_runTaskDeferred
            split_ifs
            · exact h
            · exact h
          | selecting => simp [hh] at hr
          | exitBranch => simp [hh] at hr
          | disconnectBranch => simp [hh] at hr

theorem Named_taskCleanerPass (t : Int) (w : World) (h : w.tasks.Named) :
    (taskCleanerPass t w).tasks.Named := by
  intro k v hl
  rw [taskCleanerPass_Load] at hl
  cases hv : w.tasks.Load k with
  | none => rw [hv] at hl; exact absurd hl (by simp [Option.filter])
  | some v0 =>
    rw [hv] at hl
    by_cases hp : v0.expiry < t
    · simp [Option.filter, hp] at hl
    · simp [Option.filter, hp] at hl
      rw [← hl]
      exact h k v0 hv

theorem Named_downloadAsset (now : Int) (w : World) (taskId : GoString) (h : w.tasks.Named) :
    (downloadAsset now w taskId).2.tasks.Named := by
  unfold downloadAsset
  cases w.tasks.Load taskId with
  | none => exact h
  | some task =>
    simp only
    by_cases hg : task.status ≠ 2 ∨ task.result = []
    · rw [if_pos hg]; exact h
    · rw [if_neg hg]
      exact Named_modify _ _ _ h (fun _ => ⟨rfl, rfl⟩)

theorem Join_ne_nil (a b : GoString) (hb : b ≠ []) : Join [a, b] ≠ [] := by
  unfold Join
  have hlen : ¬ (([a, b].map List.length).sum = 0) := by
    have : 0 < b.length := List.length_pos.2 hb
    simp only [List.map_cons, List.map_nil, List.sum_cons, List.sum_nil]
    omega
  rw [if_neg hlen]
  exact Clean_ne_nil _

theorem Named_taskByUpload (ToLower : GoString → GoString) (req : UploadReq) (s : Server)
    (h : s.world.tasks.Named) : (taskByUpload ToLower req s).2.world.tasks.Named := by
  unfold taskByUpload
  cases hf : req.fileErr with
  | some err => exact h
  | none =>
    by_cases hn : sanitizeFilename req.name = []
    · simp only [hn, if_true]; exact h
    · cases hc : req.createErr with
      | some err => simp only [hn, if_false]; exact h
      | none =>
        cases hp : req.copyErr with
        | some err => simp only [hn, if_false]; exact h
        | none =>
          simp only [hn, if_false]
          have hocr : "ocr_".toList ++ sanitizeFilename req.name ≠ [] := by
            intro hh
            have hlen := congrArg List.length hh
            rw [List.length_append] at hlen
            have h4 : "ocr_".toList.length = 4 := by decide
            rw [h4] at hlen
            simp at hlen
          exact Named_Store _ _ _ h hn (Join_ne_nil _ _ hocr)

theorem Reachable_Named {s : Server} (h : Reachable s) : s.world.tasks.Named := by
  induction h with
  | start _ _ _ => exact Named_empty
  | upload ToLower req s _ ih => exact Named_taskByUpload ToLower req s ih
  | run env taskId s _ ih =>
    unfold Server.run
    cases hr : runTask env s.world taskId with
    | none => exact Named_modify _ _ _ ih (fun _ => ⟨rfl, rfl⟩)
    | some r => exact Named_runTask env s.world taskId r ih hr
  | download now taskId s _ ih => exact Named_downloadAsset now s.world taskId ih
  | sweep t s _ ih => exact Named_taskCleanerPass t s.world ih

theorem servedServer_reachable : Reachable servedServer :=
  Reachable.run _ _ _ (Reachable.upload _ _ _ (Reachable.start _ _ _))

theorem collisionServer_reachable : Reachable collisionServer :=
  Reachable.sweep _ _ (Reachable.run _ _ _ (Reachable.run _ _ _
    (Reachable.upload _ _ _ (Reachable.upload _ _ _ (Reachable.start _ _ _)))))

/-! ## Claims on retrieval and on the sweeper -/

/-- C5, as amended: in every state the server can reach, `downloadAsset` answers
not-found for an unknown id, answers `task not finished` whenever the status
is not 2, and serves the output file when the status is 2 and that file is on
disk; a request answered not-found for an unknown id or `task not finished`
leaves the world as it was, and no request changes any status. -/
theorem downloadAsset_contract (s : Server) (hs : Reachable s) (now : Int) (taskId : GoString) :
    (s.world.tasks.Load taskId = none →
      downloadAsset now s.world taskId = (.notFound "404 page not found".toList, s.world)) ∧
    (∀ task, s.world.tasks.Load taskId = some task → task.status ≠ 2 →
      downloadAsset now s.world taskId = (.serverError "task not finished".toList, s.world)) ∧
    (∀ task, s.world.tasks.Load taskId = some task → task.status = 2 →
      task.result ∈ s.world.files →
      (downloadAsset now s.world taskId).1
        = .serveFile task.result ("ocr_".toList ++ task.filename)) ∧
    (∀ k, ((downloadAsset now s.world taskId).2.tasks.Load k).map (fun t => t.status)
      = (s.world.tasks.Load k).map (fun t => t.status)) := by
  have hnamed := Reachable_Named hs
  refine ⟨?_, ?_, ?_, ?_⟩
  · intro h
    simp [downloadAsset, h]
  · intro task h h2
    simp only [downloadAsset, h]
    rw [if_pos (Or.inl h2)]
  · intro task h h2 hdisk
    have hn : ¬ (task.status ≠ 2 ∨ task.result = []) := by
      intro hc
      rcases hc with hc | hc
      · exact hc h2
      · exact (hnamed taskId task h).2 hc
    simp only [downloadAsset, h]
    rw [if_neg hn, if_pos hdisk]
  · intro k
    unfold downloadAsset
    cases h : s.world.tasks.Load taskId with
    | none => rfl
    | some task =>
      by_cases hg : task.status ≠ 2 ∨ task.result = []
      · simp only [if_pos hg]
      · simp only [if_neg hg]
        rw [Load_modify]
        by_cases hk : k = taskId
        · rw [if_pos hk]
          cases s.world.tasks.Load k <;> rfl
        · rw [if_neg hk]

set_option maxRecDepth 100000 in
/-- C5, at a concrete state: after one upload and a successful execution the
output file is on disk and is served. -/
theorem downloadAsset_contract_witness :
    (downloadAsset (100 + minute) servedServer.world "1700000000000000005-1".toList).1
      = .serveFile "srv/output/ocr_a.pdf".toList "ocr_a.pdf".toList :=
  (downloadAsset_contract servedServer servedServer_reachable (100 + minute)
    "1700000000000000005-1".toList).2.2.1 servedTask (by decide) (by decide) (by decide)

set_option maxRecDepth 100000 in
/-- C5 as stated fails, in a state the server reaches: two files named `a.pdf`
are uploaded and both tasks are executed with success; the sweeper removes the
first task, expired, and with it the output file the two tasks share.  The
second task has status 2, and the request for its output is answered
`404 page not found`; that failing request has changed the expiry of the task. -/
theorem downloadAsset_succeeded_not_served :
    Reachable collisionServer ∧
    (collisionServer.world.tasks.Load "1700000000000000009-2".toList).map (fun t => t.status)
      = some 2 ∧
    (downloadAsset (100 + 13 * minute) collisionServer.world "1700000000000000009-2".toList).1
      = .notFound "404 page not found".toList ∧
    (collisionServer.world.tasks.Load "1700000000000000009-2".toList).map (fun t => t.expiry)
      = some (100 + 15 * minute) ∧
    ((downloadAsset (100 + 13 * minute) collisionServer.world
        "1700000000000000009-2".toList).2.tasks.Load "1700000000000000009-2".toList).map
      (fun t => t.expiry) = some (100 + 16 * minute) :=
  ⟨collisionServer_reachable, by decide, by decide, by decide, by decide⟩

/-- C6: in every state the server can reach, one pass of the sweeper at time `t`
removes exactly the records whose expiry is before `t`: each of them is gone
from the registry, `os.Remove` has been called on its source file and on its
output file (the log records the calls, whether or not the files exist) and
neither file is on disk afterwards; every other record is kept unchanged, no
record appears, and nothing else is passed to `os.Remove`. -/
theorem taskCleanerPass_spec (s : Server) (hs : Reachable s) (t : Int) :
    (∀ k v, s.world.tasks.Load k = some v → v.expiry < t →
      (taskCleanerPass t s.world).tasks.Load k = none ∧
      v.filepath ∈ (taskCleanerPass t s.world).removed ∧
      v.result ∈ (taskCleanerPass t s.world).removed ∧
      v.filepath ∉ (taskCleanerPass t s.world).files ∧
      v.result ∉ (taskCleanerPass t s.world).files) ∧
    (∀ k v, s.world.tasks.Load k = some v → ¬ v.expiry < t →
      (taskCleanerPass t s.world).tasks.Load k = some v) ∧
    (∀ k, s.world.tasks.Load k = none → (taskCleanerPass t s.world).tasks.Load k = none) ∧
    (∃ extra, (taskCleanerPass t s.world).removed = s.world.removed ++ extra ∧
      ∀ p ∈ extra, ∃ k v, s.world.tasks.Load k = some v ∧ v.expiry < t ∧
        (p = v.filepath ∨ p = v.result)) := by
  have hnamed := Reachable_Named hs
  obtain ⟨extra, hex, hmem⟩ := foldl_cleanerVisit_log t s.world.tasks.entries ([], [])
  rw [List.nil_append] at hex
  have hrem : (taskCleanerPass t s.world).removed = s.world.removed ++ extra := by
    show s.world.removed ++ _ = _
    rw [hex]
  have hfiles : (taskCleanerPass t s.world).files
      = s.world.files.filter (fun p => decide (p ∉ extra)) := by
    show s.world.files.filter _ = _
    rw [hex]
  refine ⟨?_, ?_, ?_, ?_⟩
  · intro k v h hlt
    have hin : (k, v) ∈ s.world.tasks.entries := lookupEntry_mem h
    have hne := hnamed k v h
    have h1 : v.filepath ∈ extra := (hmem _).2 ⟨(k, v), hin, hlt, Or.inl ⟨hne.1, rfl⟩⟩
    have h2 : v.result ∈ extra := (hmem _).2 ⟨(k, v), hin, hlt, Or.inr ⟨hne.2, rfl⟩⟩
    refine ⟨?_, ?_, ?_, ?_, ?_⟩
    · rw [taskCleanerPass_Load, h]
      simp [Option.filter, hlt]
    · rw [hrem]; exact List.mem_append_right _ h1
    · rw [hrem]; exact List.mem_append_right _ h2
    · rw [hfiles]
      intro hf
      have := (List.mem_filter.1 hf).2
      simp only [decide_eq_true_eq] at this
      exact this h1
    · rw [hfiles]
      intro hf
      have := (List.mem_filter.1 hf).2
      simp only [decide_eq_true_eq] at this
      exact this h2
  · intro k v h hlt
    rw [taskCleanerPass_Load, h]
    simp [Option.filter, hlt]
  · intro k h
    rw [taskCleanerPass_Load, h]
    rfl
  · refine ⟨extra, hrem, ?_⟩
    intro p hp
    obtain ⟨e, he, hlt, hor⟩ := (hmem p).1 hp
    refine ⟨e.1, e.2, lookupEntry_of_mem s.world.tasks.nodup he, hlt, ?_⟩
    rcases hor with h1 | h1
    · exact Or.inl h1.2
    · exact Or.inr h1.2

set_option maxRecDepth 100000 in
/-- C6, at a concrete state: the task of `servedServer`, expired eleven minutes
after its execution, is removed, and its two files are passed to `os.Remove`. -/
theorem taskCleanerPass_spec_witness :
    (taskCleanerPass (100 + 11 * minute) servedServer.world).tasks.Load
        "1700000000000000005-1".toList = none ∧
    "srv/files/1700000000000000005-1".toList
      ∈ (taskCleanerPass (100 + 11 * minute) servedServer.world).removed ∧
    "srv/output/ocr_a.pdf".toList
      ∈ (taskCleanerPass (100 + 11 * minute) servedServer.world).removed ∧
    "srv/files/1700000000000000005-1".toList
      ∉ (taskCleanerPass (100 + 11 * minute) servedServer.world).files ∧
    "srv/output/ocr_a.pdf".toList
      ∉ (taskCleanerPass (100 + 11 * minute) servedServer.world).files :=
  (taskCleanerPass_spec servedServer servedServer_reachable (100 + 11 * minute)).1
    "1700000000000000005-1".toList servedTask (by decide) (by decide)

end OcrMyPdf
